import Mathlib

/-
Shallow embedding of the cronex constraint-compilation and trigger-evaluation
engine (src/cronex/__init__.py).

Conventions used throughout:
* Python integers are modelled as Lean `Int`.  Python `//` and `%` agree with
  Lean `Int` `/` (`Int.ediv`) and `%` (`Int.emod`) whenever the divisor is
  positive, which is the only case the source exercises (periods are >= 2 and
  the literal divisors 12, 60, 3600, 86400 are positive).
* Python `set`/`frozenset` objects are modelled as duplicate-free `List`s;
  every operation below is insensitive to the order of such a list, so list
  order never influences a result.  Where the source can feed a duplicated
  list into `frozenset` (only the wraparound branch of `expand`), the model
  deduplicates explicitly.
* Fallible Python code (raised exceptions) is modelled with `Except Err`.
-/

set_option maxRecDepth 100000

namespace Cronex

/-- Sanity checks: Lean `Int` `%` and `/` match Python `%` and `//` for
positive divisors. -/
example : (-5 : Int) % 3 = 1 ∧ (-5 : Int) / 3 = -2 := by decide

/-- The seven cron fields, in the order of `ORDERED_FIELD_RANGES_AND_NAMES`. -/
inductive Field where
  | seconds | minutes | hours | days | months | dotw | years
deriving DecidableEq, Repr

/-- Exceptions raised by the module.  `fieldSyntaxError`, `invalidUsage` and
`outOfBounds` mirror the subclasses of `InvalidField`; `invalidFieldError` is
the base `InvalidField` class raised directly (step size, full-week
days-of-the-week field); `genericError` is the base `cronex.Error`;
`typeError`, `keyError` and `unboundLocalError` model the builtin Python
exceptions that specific code paths can raise. -/
inductive Err where
  | missingFieldsError
  | fieldSyntaxError (field : Field)
  | invalidUsage (field : Field)
  | outOfBounds (field : Field)
  | invalidFieldError (field : Field)
  | genericError
  | typeError
  | keyError
  | valueError
  | unboundLocalError
deriving DecidableEq, Repr

/-- FIELD_RANGES: inclusive numeric range of each field. -/
def fieldRange : Field → Int × Int
  | .seconds => (0, 59)
  | .minutes => (0, 59)
  | .hours   => (0, 23)
  | .days    => (1, 31)
  | .months  => (1, 12)
  | .dotw    => (0, 6)
  | .years   => (1970, 9999)

/-- FIELDS: the field names in evaluation order. -/
def FIELDS : List Field :=
  [.seconds, .minutes, .hours, .days, .months, .dotw, .years]

/-- The `Epoch` named tuple.  Each component may be Python `None`
(`Option.none`). -/
structure Epoch where
  year : Option Int
  month : Option Int
  day : Option Int
  timestamp : Option Int
deriving DecidableEq, Repr

/-- Day annotations.  The source represents these as tuples whose first
element is one of the tag strings `"?"`, `"L/L-?"`, `"?#?"`, `"?L"`, `"?W"`;
the five constructors model those five tag shapes. -/
inductive Annot where
  | dotw (d : Int)
  | lastDays (n : Int)
  | nthDotw (d : Int) (n : Int)
  | lastDotw (d : Int)
  | nearestWeekday (d : Int)
deriving DecidableEq, Repr

instance {ε α : Type} [DecidableEq ε] [DecidableEq α] :
    DecidableEq (Except ε α) := fun x y =>
  match x, y with
  | .ok a, .ok b =>
      if h : a = b then .isTrue (h ▸ rfl)
      else .isFalse (fun hc => h (Except.noConfusion hc (fun h1 => h1)))
  | .error a, .error b =>
      if h : a = b then .isTrue (h ▸ rfl)
      else .isFalse (fun hc => h (Except.noConfusion hc (fun h1 => h1)))
  | .ok _, .error _ => .isFalse (fun hc => Except.noConfusion hc)
  | .error _, .ok _ => .isFalse (fun hc => Except.noConfusion hc)

/-! ### Python string and numeric primitives -/

/-- Split a character list at every occurrence of a separator character.
Agrees with Python `str.split(sep)` for one-character separators (the only
separators the source uses: `,`, `-`, `/`, `#`): splitting the empty string
yields one empty part. -/
def splitOnChar (sep : Char) : List Char → List (List Char)
  | [] => [[]]
  | c :: rest =>
      let r := splitOnChar sep rest
      if c == sep then [] :: r
      else
        match r with
        | [] => [[c]]
        | h :: t => (c :: h) :: t

/-- Python `str.split(sep)` for a one-character separator, on `String`s. -/
def pySplitOn (sep : Char) (s : String) : List String :=
  (splitOnChar sep s.data).map (fun cs => ⟨cs⟩)

/-- Python `str.isdigit()` restricted to ASCII digits (the only characters the
module feeds it). -/
def pyIsDigit (s : String) : Bool :=
  s.data ≠ [] && s.data.all Char.isDigit

/-- Numeric value of an all-ASCII-digit string. -/
def digitsVal (s : String) : Int :=
  s.data.foldl (fun acc c => acc * 10 + (Int.ofNat c.toNat - 48)) 0

/-- Python `int(s)`: optional surrounding whitespace, optional sign, at least
one digit; `none` models `ValueError`. -/
def pyInt (s : String) : Option Int :=
  let core := (s.data.dropWhile (fun c => c == ' ')).reverse.dropWhile
    (fun c => c == ' ') |>.reverse
  match core with
  | '-' :: rest =>
      if rest ≠ [] && rest.all Char.isDigit then some (-(digitsVal ⟨rest⟩))
      else none
  | '+' :: rest =>
      if rest ≠ [] && rest.all Char.isDigit then some (digitsVal ⟨rest⟩)
      else none
  | _ =>
      if core ≠ [] && core.all Char.isDigit then some (digitsVal ⟨core⟩)
      else none

/-- Python `range(start, stop, step)` for a positive step, as a list. -/
def pyrange (start stop step : Int) : List Int :=
  (List.range ((stop - start + step - 1) / step).toNat).map
    (fun n => start + n * step)

/-- Python `list[::step]` for a positive step. -/
def pySlice {α : Type} (l : List α) (step : Nat) : List α :=
  (l.enum.filter (fun p => p.1 % step == 0)).map (fun p => p.2)

/-! ### OutOfBounds.check -/

/-- `OutOfBounds.check(field, what)`: raises `OutOfBounds` when any value lies
outside the field's inclusive range (the exception text is not modelled). -/
def oobCheck (field : Field) (what : List Int) : Except Err Unit :=
  let minimum := (fieldRange field).1
  let maximum := (fieldRange field).2
  if what.all (fun v => minimum ≤ v && v ≤ maximum) then .ok ()
  else .error (.outOfBounds field)

/-! ### RANGE_REGEX and expand -/

/-- Successful match data of
`RANGE_REGEX = ((?P<first>\d+)-(?P<last>\d+)|\*)(/(?P<step>\d+))?$`
(anchored on both sides by `re.match` and `$`): the body is either a pair of
digit strings (`first`, `last`) or `*` (`none`), plus an optional digit-string
step.  The decomposition by `/` and `-` is equivalent to the regex because
digit runs can contain neither separator. -/
def rangeRegexMatch (s : String) :
    Option (Option (String × String) × Option String) :=
  let parseBody (b : String) : Option (Option (String × String)) :=
    if b == "*" then some none
    else match pySplitOn '-' b with
      | [x, y] => if pyIsDigit x && pyIsDigit y then some (some (x, y)) else none
      | _ => none
  match pySplitOn '/' s with
  | [b] => (parseBody b).map (fun r => (r, none))
  | [b, st] =>
      if pyIsDigit st then (parseBody b).map (fun r => (r, some st)) else none
  | _ => none

/-- `expand(field, expression)`: convert a fixed-constraint expression into a
set of numbers.  Wraparound ranges (`first >= last`, the source tests
`first < last`) concatenate the top and bottom of the field range, take every
`step`-th element, and deduplicate via `frozenset` (the two concatenated
ranges overlap exactly when `first == last`); straight ranges are built with
`range`, which never produces duplicates. -/
def expand (field : Field) (expression : String) : Except Err (List Int) :=
  if pyIsDigit expression then do
    let value := digitsVal expression
    oobCheck field [value]
    pure [value]
  else
    match rangeRegexMatch expression with
    | none => .error (.fieldSyntaxError field)
    | some (body, stepStr) =>
      let step : Int := match stepStr with
        | some st => digitsVal st
        | none => 1
      if step < 1 then .error (.invalidFieldError field)
      else do
        let fmin := (fieldRange field).1
        let fmax := (fieldRange field).2
        let first : Int := match body with
          | some (x, _) => digitsVal x
          | none => fmin
        let last : Int := match body with
          | some (_, y) => digitsVal y
          | none => fmax
        oobCheck field [first, last]
        if first < last then
          pure (pyrange first (last + 1) step)
        else
          let elements := pyrange first (fmax + 1) 1 ++ pyrange fmin (last + 1) 1
          pure (pySlice elements step.toNat).dedup

/-! ### check_monotonic and simplify_monotonic_series -/

/-- `check_monotonic(value, series, numerator=0)`: true when the (possibly
numerator-divided) value is a non-zero multiple of some period in the series.
A zero `value` short-circuits to `False` (`if series and value`). -/
def check_monotonic (value : Int) (series : List Int) (numerator : Int) : Bool :=
  if series ≠ [] && value != 0 then
    let value := if numerator != 0 then value / numerator else value
    series.any (fun item => value % item == 0)
  else false

/-- Python `sorted` on integers (insertion sort: sorted and a permutation of
the input). -/
def sortInts (l : List Int) : List Int :=
  List.insertionSort (fun a b => a ≤ b) l

/-- One iteration of the `simplify_monotonic_series` loop: the source
`break`s out of the factor loop on the first divisor and appends in the
`for`-`else`; an empty factor list appends unconditionally, which the `[]`
case mirrors. -/
def simplifyStep (factors : List Int) (value : Int) : List Int :=
  match factors with
  | [] => [value]
  | _ =>
      if factors.any (fun factor => value % factor == 0) then factors
      else factors ++ [value]

/-- `simplify_monotonic_series(series)`: walk the series in ascending order,
keeping a value only when no previously kept value divides it. -/
def simplify_monotonic_series (series : List Int) : List Int :=
  (sortInts series).foldl simplifyStep []

example : simplify_monotonic_series [5, 17, 25, 45] = [5, 17] := by decide
example : simplify_monotonic_series [2, 3, 4, 5, 6, 7, 8, 9] = [2, 3, 5, 7] := by
  decide
example : check_monotonic 6 [2, 3, 5] 0 = true := by decide
example : check_monotonic 7 [2, 3, 5] 0 = false := by decide
example : check_monotonic 117 [2] 0 = false := by decide
example : check_monotonic 117 [1] 0 = true := by decide

/-! ### as_annotation (`as_annot`) -/

/-- Decimal rendering of a natural number. -/
def natToChars (fuel n : Nat) : List Char :=
  match fuel with
  | 0 => []
  | fuel + 1 =>
      if n < 10 then [Char.ofNat (48 + n)]
      else natToChars fuel (n / 10) ++ [Char.ofNat (48 + n % 10)]

/-- Python `str(i)` for an integer. -/
def intToString (i : Int) : String :=
  if i < 0 then ⟨'-' :: natToChars (i.natAbs + 1) i.natAbs⟩
  else ⟨natToChars (i.toNat + 1) i.toNat⟩

/-- Split at the first occurrence of a separator, Python `split(sep, 1)`. -/
def splitOnceChar (sep : Char) (s : String) : String × String :=
  match splitOnChar sep s.data with
  | [] => (s, "")
  | h :: t => (⟨h⟩, ⟨List.intercalate [sep] t⟩)

/-- True when the string's first character is `c` (Python `startswith`). -/
def headIs (c : Char) (s : String) : Bool :=
  match s.data with
  | d :: _ => d == c
  | [] => false

/-- True when the string's last character is `c` (Python `endswith`). -/
def lastIs (c : Char) (s : String) : Bool :=
  match s.data.reverse with
  | d :: _ => d == c
  | [] => false

/-- `as_annotation(field, expression)`: translate a dynamic construct into an
annotation tuple, following the source's branch order exactly (`#` first, then
`"L"`, `L-`, trailing `L`, trailing `W`, then a plain integer).  `valueError`
models `int()` failing on a malformed piece. -/
def as_annot (field : Field) (expression : String) : Except Err Annot := do
  if (expression.data.contains '#') then
    let (a, b) := splitOnceChar '#' expression
    let day_of_the_week ← match pyInt a with
      | some v => pure v
      | none => throw .valueError
    let value ← match pyInt b with
      | some v => pure v
      | none => throw .valueError
    if field != Field.dotw then
      throw (.invalidUsage field)
    if value < 1 || value > 5 then
      throw (.outOfBounds field)
    oobCheck field [day_of_the_week]
    return .nthDotw day_of_the_week value
  if expression == "L" then
    if field == Field.dotw then
      throw .genericError
    if field == Field.days then
      return .lastDays 0
    throw (.invalidUsage field)
  if expression.data.take 2 == ['L', '-'] then
    let distance ← match pyInt (((pySplitOn '-' expression).drop 1).headD "") with
      | some v => pure v
      | none => throw .valueError
    if distance > 30 then
      throw (.outOfBounds field)
    if field != Field.days then
      throw (.invalidUsage field)
    return .lastDays distance
  if lastIs 'L' expression then
    let day_of_the_week ← match pyInt ⟨expression.data.dropLast⟩ with
      | some v => pure v
      | none => throw .valueError
    oobCheck Field.dotw [day_of_the_week]
    if field != Field.dotw then
      throw (.invalidUsage field)
    return .lastDotw day_of_the_week
  if lastIs 'W' expression then
    if field != Field.days then
      throw (.invalidUsage field)
    let day ← match pyInt ⟨expression.data.dropLast⟩ with
      | some v => pure v
      | none => throw .valueError
    oobCheck field [day]
    return .nearestWeekday day
  let dotw ← match pyInt expression with
    | some v => pure v
    | none => throw .valueError
  oobCheck field [dotw]
  return .dotw dotw

example : as_annot .days "L" = .ok (.lastDays 0) := by decide
example : as_annot .days "L-3" = .ok (.lastDays 3) := by decide
example : as_annot .days "L-31" = .error (.outOfBounds .days) := by decide
example : as_annot .dotw "5L" = .ok (.lastDotw 5) := by decide
example : as_annot .dotw "99L" = .error (.outOfBounds .dotw) := by decide
example : as_annot .days "7W" = .ok (.nearestWeekday 7) := by decide
example : as_annot .dotw "3#2" = .ok (.nthDotw 3 2) := by decide
example : as_annot .dotw "1#6" = .error (.outOfBounds .dotw) := by decide
example : as_annot .dotw "8#1" = .error (.outOfBounds .dotw) := by decide
example : as_annot .minutes "1#1" = .error (.invalidUsage .minutes) := by decide
example : as_annot .dotw "L" = .error .genericError := by decide
example : as_annot .dotw "4" = .ok (.dotw 4) := by decide

/-! ### DAY_REGEX / MONTH_REGEX substitution and atomize -/

/-- Characters the `\b` boundary of `re` treats as word characters (ASCII). -/
def isWordChar (c : Char) : Bool := c.isAlphanum || c == '_'

/-- DAY_MAP keyed by upper-case characters. -/
def DAY_MAP : List (List Char × Int) :=
  [(['S','U','N'], 0), (['M','O','N'], 1), (['T','U','E'], 2),
   (['W','E','D'], 3), (['T','H','U'], 4), (['F','R','I'], 5),
   (['S','A','T'], 6)]

/-- MONTH_MAP keyed by upper-case characters. -/
def MONTH_MAP : List (List Char × Int) :=
  [(['J','A','N'], 1), (['F','E','B'], 2), (['M','A','R'], 3),
   (['A','P','R'], 4), (['M','A','Y'], 5), (['J','U','N'], 6),
   (['J','U','L'], 7), (['A','U','G'], 8), (['S','E','P'], 9),
   (['O','C','T'], 10), (['N','O','V'], 11), (['D','E','C'], 12)]

/-- Case-insensitive lookup of a three-letter abbreviation at the head of the
character list; returns the matched characters and the remainder. -/
def matchNameHead (names : List (List Char × Int)) (cs : List Char) :
    Option (List Char × List Char) :=
  match cs with
  | c1 :: c2 :: c3 :: rest =>
      if names.any (fun p => p.1 == [c1.toUpper, c2.toUpper, c3.toUpper]) then
        some ([c1, c2, c3], rest)
      else none
  | _ => none

/-- One attempted match of `\b(NAME)L?\b` (`withL = true`, DAY_REGEX) or
`\b(NAME)\b` (`withL = false`, MONTH_REGEX) starting at the head of `cs`,
with `prevWord` telling whether the preceding character is a word character
(for the leading `\b`).  The greedy `L?` first tries to take a trailing
`L`/`l` and falls back to the bare name only when the `\b` after the `L`
fails; the bare name then needs a `\b` before the `L`, which cannot hold, so
such positions do not match at all. -/
def tryRegexMatchAt (withL : Bool) (names : List (List Char × Int))
    (prevWord : Bool) (cs : List Char) : Option (List Char × List Char) :=
  if prevWord then none
  else
    match matchNameHead names cs with
    | none => none
    | some (matched, rest) =>
        match rest with
        | d :: rest2 =>
            if withL && (d == 'L' || d == 'l') then
              match rest2 with
              | e :: _ => if isWordChar e then none else some (matched ++ [d], rest2)
              | [] => some (matched ++ [d], rest2)
            else if isWordChar d then none
            else some (matched, rest)
        | [] => some (matched, rest)

/-- `regex.sub(replacer, contents)` for DAY_REGEX / MONTH_REGEX: scan left to
right, replacing each non-overlapping match with
`str(MAP[match.group().upper()])`.  A DAY_REGEX match that includes the
optional `L` produces a four-character key that is missing from `DAY_MAP`, so
the replacer raises `KeyError`. -/
def nameRegexSubGo (withL : Bool) (names : List (List Char × Int)) :
    (fuel : Nat) → (prevWord : Bool) → List Char → Except Err (List Char)
  | 0, _, _ => .ok []
  | _ + 1, _, [] => .ok []
  | fuel + 1, prevWord, c :: rest =>
      match tryRegexMatchAt withL names prevWord (c :: rest) with
      | some (matched, remaining) =>
          match names.find? (fun p => p.1 == matched.map Char.toUpper) with
          | some (_, v) => do
              let tail ← nameRegexSubGo withL names fuel true remaining
              pure ((intToString v).data ++ tail)
          | none => .error .keyError
      | none => do
          let tail ← nameRegexSubGo withL names fuel (isWordChar c) rest
          pure (c :: tail)

/-- `DAY_REGEX.sub` composed with the replacer, on strings. -/
def dayRegexSub (s : String) : Except Err String :=
  (nameRegexSubGo true DAY_MAP (s.data.length + 1) false s.data).map
    (fun cs => ⟨cs⟩)

/-- `MONTH_REGEX.sub` composed with the replacer, on strings. -/
def monthRegexSub (s : String) : Except Err String :=
  (nameRegexSubGo false MONTH_MAP (s.data.length + 1) false s.data).map
    (fun cs => ⟨cs⟩)

/-- `atomize(field, contents)`: split a field into comma-separated atoms,
after name substitution for the months and days-of-the-week fields, mapping
`7` and `L` to `0` in the days-of-the-week field.  The returned `frozenset`
is modelled by deduplicating the atom list; every consumer folds set unions
over the atoms, so duplicate atoms would not change any result anyway. -/
def atomize (field : Field) (contents : String) : Except Err (List String) := do
  let atoms ←
    if field == Field.dotw then do
      let replaced ← dayRegexSub contents
      pure ((pySplitOn ',' replaced).map
        (fun atom => if atom == "7" || atom == "L" then "0" else atom))
    else if field == Field.months then do
      let replaced ← monthRegexSub contents
      pure (pySplitOn ',' replaced)
    else
      pure (pySplitOn ',' contents)
  if atoms.length > 1 && (atoms.contains "*" || atoms.contains "?") then
    throw (.invalidUsage field)
  if atoms.contains "" then
    throw (.fieldSyntaxError field)
  return atoms.dedup

example : atomize .months "Jan,FEB,mar,12" = .ok ["1", "2", "3", "12"] := by
  decide
example : atomize .dotw "sun,MoN,tue,6" = .ok ["0", "1", "2", "6"] := by decide
example : atomize .dotw "L,1,L-1" = .ok ["0", "1", "L-1"] := by decide
example : atomize .dotw "Sat,0,1" = .ok ["6", "0", "1"] := by decide
example : atomize .minutes "" = .error (.fieldSyntaxError .minutes) := by decide
example : atomize .hours "*,*" = .error (.invalidUsage .hours) := by decide
example : atomize .hours "?,?" = .error (.invalidUsage .hours) := by decide
example : atomize .hours "1,,2" = .error (.fieldSyntaxError .hours) := by decide

/-! ### parse_atom -/

/-- Match against
`ANNOTATABLE_FIELD_REGEX = ^(L|L-[0-9]+|[0-9]+#[0-9]+|[0-9]+L|[0-9]+W)$`. -/
def annotatableMatch (s : String) : Bool :=
  s == "L"
  || (match s.data with
      | 'L' :: '-' :: rest => rest ≠ [] && rest.all Char.isDigit
      | _ => false)
  || (match splitOnChar '#' s.data with
      | [a, b] =>
          a ≠ [] && a.all Char.isDigit && b ≠ [] && b.all Char.isDigit
      | _ => false)
  || (match s.data.reverse with
      | 'L' :: rest => rest ≠ [] && rest.all Char.isDigit
      | _ => false)
  || (match s.data.reverse with
      | 'W' :: rest => rest ≠ [] && rest.all Char.isDigit
      | _ => false)

/-- Result of `parse_atom`: the `(mode, value)` pair, with the set payloads of
the annotation and fixed modes modelled as duplicate-free lists. -/
inductive ParsedAtom where
  | annot (anns : List Annot)
  | monotonic (period : Int)
  | fixed (values : List Int)
deriving DecidableEq, Repr

/-- Monotonic-to-fixed series for the years field:
`range(epoch.year, year_max, period)` (stop exclusive, so 9999 itself is
never enumerated). -/
def yearsMonotonicSeries (epochYear period : Int) : List Int :=
  pyrange epochYear 9999 period

/-- Monotonic-to-fixed series for the months field:
`((n * period + shift) % 12 + 1 for n in range(count))` with
`shift = epoch.month - 1` and `count = 12 // period`. -/
def monthsMonotonicSeries (period epochMonth : Int) : List Int :=
  let shift := epochMonth - 1
  let count := 12 / period
  (List.range count.toNat).map (fun n => (Int.ofNat n * period + shift) % 12 + 1)

/-- Monotonic-to-fixed series for the seconds field:
`((n * period + shift) % 60 for n in range(count))` with
`shift = epoch.timestamp or 0` and `count = 60 // period`. -/
def secondsMonotonicSeries (period shift : Int) : List Int :=
  let count := 60 / period
  (List.range count.toNat).map (fun n => (Int.ofNat n * period + shift) % 60)

/-- The days-of-the-week branch of `parse_atom`.  It comes before the
annotatable-pattern test, so every non-`*` atom of that field goes through
`expand` (dynamic constructs such as `5L` therefore fail there with
`FieldSyntaxError`). -/
def parseDotwAtom (field : Field) (atom : String) : Except Err ParsedAtom := do
  if headIs '%' atom then
    throw (.invalidUsage field)
  if atom == "*" then
    return .annot []
  let values ← expand field atom
  let days ← values.mapM (fun n => as_annot field (intToString n))
  if days.dedup.length == 7 then
    throw (.invalidFieldError field)
  return .annot days.dedup

/-- The monotonic (`%`-prefixed) tail of `parse_atom`: epoch guards, period
parse, lower bound, and monotonic-to-fixed reduction.  The epoch guards
ensure the components read afterwards are present; `getD` is only a
total-function formality on those guarded reads. -/
def parseMonotonicTail (field : Field) (atom : String) (epoch : Option Epoch) :
    Except Err ParsedAtom := do
  if (epoch == none
        || (epoch.bind Epoch.year == none || epoch.bind Epoch.month == none
            || epoch.bind Epoch.day == none))
      && (field == Field.years || field == Field.months
          || field == Field.days) then
    throw (.fieldSyntaxError field)
  if (epoch == none || epoch.bind Epoch.timestamp == none)
      && (field == Field.hours || field == Field.minutes
          || field == Field.seconds) then
    throw (.fieldSyntaxError field)
  let period ← match pyInt ⟨atom.data.drop 1⟩ with
    | some p => pure p
    | none => throw (.fieldSyntaxError field)
  if period < 2 then
    throw (.outOfBounds field)
  if field == Field.years then
    return .fixed (yearsMonotonicSeries
      (((epoch.getD ⟨none, none, none, none⟩).year).getD 0) period)
  else if field == Field.months && 12 % period == 0 then
    return .fixed (monthsMonotonicSeries period
      (((epoch.getD ⟨none, none, none, none⟩).month).getD 0))
  else if field == Field.seconds && 60 % period == 0 then
    return .fixed (secondsMonotonicSeries period
      (((epoch.getD ⟨none, none, none, none⟩).timestamp).getD 0))
  else
    return .monotonic period

/-- `parse_atom(field, atom, epoch)` after `?`-to-`*` substitution, split
along the source's paragraph structure into the helpers above. -/
def parseAtomBody (field : Field) (atom : String) (epoch : Option Epoch) :
    Except Err ParsedAtom := do
  if field == Field.dotw then
    parseDotwAtom field atom
  else if annotatableMatch atom then
    let a ← as_annot field atom
    return .annot [a]
  else if !headIs '%' atom then
    let values ← expand field atom
    return .fixed values
  else
    parseMonotonicTail field atom epoch

/-- `parse_atom(field, atom, epoch)`: the `?` wildcard is only valid in the
days / days-of-the-week fields, where it is a synonym for `*`. -/
def parse_atom (field : Field) (atom : String) (epoch : Option Epoch) :
    Except Err ParsedAtom :=
  if atom == "?" then
    if field != Field.days && field != Field.dotw then
      .error (.invalidUsage field)
    else parseAtomBody field "*" epoch
  else parseAtomBody field atom epoch

example : parse_atom .months "%6" (some ⟨some 2000, some 1, some 1, none⟩)
    = .ok (.fixed [1, 7]) := by decide
example : parse_atom .months "%3" (some ⟨some 2020, some 5, some 1, none⟩)
    = .ok (.fixed [5, 8, 11, 2]) := by decide
example : parse_atom .months "%12" (some ⟨some 2020, some 3, some 1, none⟩)
    = .ok (.fixed [3]) := by decide
example : parse_atom .years "%1000" (some ⟨some 2000, some 1, some 1, none⟩)
    = .ok (.fixed [2000, 3000, 4000, 5000, 6000, 7000, 8000, 9000]) := by
  decide
example : parse_atom .seconds "%10" (some ⟨none, none, none, some 65⟩)
    = .ok (.fixed [5, 15, 25, 35, 45, 55]) := by decide
example : parse_atom .seconds "%15" (some ⟨none, none, none, some 100⟩)
    = .ok (.fixed [40, 55, 10, 25]) := by decide
example : parse_atom .seconds "%60" (some ⟨none, none, none, some 90⟩)
    = .ok (.fixed [30]) := by decide
example : parse_atom .minutes "%7" (some ⟨some 1970, some 1, some 1, some 0⟩)
    = .ok (.monotonic 7) := by decide
example : parse_atom .dotw "%2" (some ⟨some 1970, some 1, some 1, some 0⟩)
    = .error (.invalidUsage .dotw) := by decide
example : parse_atom .dotw "0-6" (some ⟨some 1970, some 1, some 1, some 0⟩)
    = .error (.invalidFieldError .dotw) := by decide
example : parse_atom .dotw "0-2" none
    = .ok (.annot [.dotw 0, .dotw 1, .dotw 2]) := by decide
example : parse_atom .dotw "*" none = .ok (.annot []) := by decide
example : parse_atom .minutes "?" none = .error (.invalidUsage .minutes) := by
  decide
example : parse_atom .minutes "%1" (some ⟨some 1970, some 1, some 1, some 0⟩)
    = .error (.outOfBounds .minutes) := by decide
example : parse_atom .minutes "%X" (some ⟨some 1970, some 1, some 1, some 0⟩)
    = .error (.fieldSyntaxError .minutes) := by decide
example : parse_atom .months "%2" (some ⟨none, none, none, some 0⟩)
    = .error (.fieldSyntaxError .months) := by decide
example : parse_atom .seconds "%2" (some ⟨some 1970, some 1, some 1, none⟩)
    = .error (.fieldSyntaxError .seconds) := by decide
example : parse_atom .days "L" none = .ok (.annot [.lastDays 0]) := by decide

/-! ### annotate -/

/-- `annotate(year, month, day)`: the set of annotations applying to a date.
For a month outside 1..12 no branch assigns `last_day_of_month`, so its first
use raises `UnboundLocalError`.  The constructed list never contains
duplicates, so it models the returned `frozenset` directly. -/
def annotate (year month day : Int) : Except Err (List Annot) := do
  let last_day_of_month ←
    if month == 1 || month == 3 || month == 5 || month == 7 || month == 8
        || month == 10 || month == 12 then
      pure (31 : Int)
    else if month == 4 || month == 6 || month == 9 || month == 11 then
      pure 30
    else if month == 2 then
      pure (28 +
        (if year % 4 == 0 && (year % 100 != 0 || year % 400 == 0) then 1 else 0))
    else
      throw .unboundLocalError
  let y := if month < 3 then year - 1 else year
  let dowRaw := 23 * month / 9 + day + 4 + year + y / 4 - y / 100 + y / 400
  let dow := (if month ≥ 3 then dowRaw - 2 else dowRaw) % 7
  let anns := [Annot.lastDays (last_day_of_month - day),
               Annot.nthDotw dow ((day - 1) / 7 + 1),
               Annot.dotw dow]
  let anns :=
    if last_day_of_month - day < 7 then anns ++ [.lastDotw dow] else anns
  let anns :=
    if 1 ≤ dow && dow ≤ 5 then
      let anns := anns ++ [.nearestWeekday day]
      if dow == 1 then
        let anns :=
          if day > 1 then anns ++ [.nearestWeekday (day - 1)] else anns
        if day == 3 then anns ++ [.nearestWeekday 1] else anns
      else if dow == 5 then
        let anns :=
          if day < last_day_of_month then anns ++ [.nearestWeekday (day + 1)]
          else anns
        if day + 3 > last_day_of_month then anns ++ [.nearestWeekday (day + 2)]
        else anns
      else anns
    else anns
  return anns

example : annotate 2016 2 1
    = .ok [.lastDays 28, .nthDotw 1 1, .dotw 1, .nearestWeekday 1] := by decide
example : annotate 2016 2 29
    = .ok [.lastDays 0, .nthDotw 1 5, .dotw 1, .lastDotw 1, .nearestWeekday 29,
           .nearestWeekday 28] := by decide
example : annotate 2016 2 5
    = .ok [.lastDays 24, .nthDotw 5 1, .dotw 5, .nearestWeekday 5,
           .nearestWeekday 6] := by decide
example : annotate 2016 10 3
    = .ok [.lastDays 28, .nthDotw 1 1, .dotw 1, .nearestWeekday 3,
           .nearestWeekday 2, .nearestWeekday 1] := by decide
example : annotate 2016 1 29
    = .ok [.lastDays 2, .nthDotw 5 5, .dotw 5, .lastDotw 5, .nearestWeekday 29,
           .nearestWeekday 30, .nearestWeekday 31] := by decide
example : annotate 2016 2 6 = .ok [.lastDays 23, .nthDotw 6 1, .dotw 6] := by
  decide
example : annotate 2010 13 1 = .error .unboundLocalError := by decide

/-! ### Constraint sets: generate_constraint_sets -/

/-- A per-field fixed set: either the `ASTERISK` sentinel
(`frozenset(range(10000))`, replaced by object identity) or an explicit set
of values. -/
inductive FixedSet where
  | asterisk
  | elems (values : List Int)
deriving DecidableEq, Repr

/-- Python `value in fixed_set`.  Membership in `ASTERISK` is membership in
`range(10000)`. -/
def FixedSet.mem (s : FixedSet) (v : Int) : Bool :=
  match s with
  | .asterisk => 0 ≤ v && v < 10000
  | .elems l => l.contains v

/-- The `Fields` named tuple: one value per cron field. -/
structure FieldsOf (α : Type) where
  seconds : α
  minutes : α
  hours : α
  days : α
  months : α
  days_of_the_week : α
  years : α
deriving DecidableEq, Repr

/-- Python `set.update`: add the new elements that are not yet present.  The
inputs the pipeline feeds in are duplicate-free, so the result stays a valid
set model. -/
def pyUpdate {α : Type} [BEq α] (s new : List α) : List α :=
  s ++ new.filter (fun x => !s.contains x)

/-- Python `set.add`. -/
def pyAdd {α : Type} [BEq α] (s : List α) (x : α) : List α :=
  if s.contains x then s else s ++ [x]

/-- The compiled result: global annotation set, per-field monotonic period
sets, per-field fixed sets — the tuple returned by
`generate_constraint_sets`. -/
def ConstraintSets : Type :=
  List Annot × FieldsOf (List Int) × FieldsOf FixedSet

instance : DecidableEq ConstraintSets := by
  unfold ConstraintSets; infer_instance

/-- The per-atom body of the `generate_constraint_sets` inner loop:
dispatch one parsed atom into the field's annotation / monotonic / fixed
accumulators. -/
def processFieldStep (field : Field) (epoch : Option Epoch)
    (acc : List Annot × List Int × List Int) (atom : String) :
    Except Err (List Annot × List Int × List Int) := do
  let (anns, mono, fixed) := acc
  match ← parse_atom field atom epoch with
  | .annot value => pure (pyUpdate anns value, mono, fixed)
  | .monotonic value => pure (anns, pyAdd mono value, fixed)
  | .fixed value => pure (anns, mono, pyUpdate fixed value)

/-- The per-field body of the `generate_constraint_sets` loop: process every
atom of one field, then apply the `ASTERISK` replacement (a full fixed set
becomes the sentinel, clearing the monotonic set) or simplify a non-empty
monotonic set. -/
def processField (field : Field) (part : String) (epoch : Option Epoch) :
    Except Err (List Annot × List Int × FixedSet) := do
  let atoms ← atomize field part
  let (anns, field_monotonic, field_fixed) ←
    atoms.foldlM (processFieldStep field epoch) ([], [], [])
  let beginV := (fieldRange field).1
  let endV := (fieldRange field).2
  let fixedSet : FixedSet :=
    if Int.ofNat field_fixed.length == endV - beginV + 1 then .asterisk
    else .elems field_fixed
  let monotonicSet : List Int :=
    if fixedSet == .asterisk then []
    else if field_monotonic ≠ [] then simplify_monotonic_series field_monotonic
    else field_monotonic
  return (anns, monotonicSet, fixedSet)

/-- The per-field body of the `generate_constraint_sets` outer loop: union
the field's annotations into the global set and append its monotonic and
fixed sets. -/
def generateStep (epoch : Option Epoch)
    (acc : List Annot × List (List Int) × List FixedSet) (fp : Field × String) :
    Except Err (List Annot × List (List Int) × List FixedSet) := do
  let (anns, monotonic, fixed) := acc
  let (a, m, f) ← processField fp.1 fp.2 epoch
  pure (pyUpdate anns a, monotonic ++ [m], fixed ++ [f])

/-- `generate_constraint_sets(parts, epoch)`: run the loop over
`zip(FIELDS, parts)` and build the two `Fields` named tuples, which require
exactly seven positional arguments (`Fields(*monotonic)` raises `TypeError`
when the loop produced fewer because `parts` was short). -/
def generate_constraint_sets (parts : List String) (epoch : Option Epoch) :
    Except Err ConstraintSets := do
  let (anns, monotonic, fixed) ←
    (FIELDS.zip parts).foldlM (generateStep epoch) ([], [], [])
  match monotonic, fixed with
  | [m1, m2, m3, m4, m5, m6, m7], [f1, f2, f3, f4, f5, f6, f7] =>
      return (anns, ⟨m1, m2, m3, m4, m5, m6, m7⟩, ⟨f1, f2, f3, f4, f5, f6, f7⟩)
  | _, _ => throw .typeError

/-! ### The CronExpression constructor -/

/-- Python `str.split(None, maxsplit)`: split on runs of whitespace,
discarding leading whitespace; with the split budget exhausted the rest of
the string (whitespace-stripped on the left only) is the final part. -/
def isPySpace (c : Char) : Bool :=
  c == ' ' || c == '\t' || c == '\n' || c == '\r' ||
  c == Char.ofNat 11 || c == Char.ofNat 12

def pySplitWsGo : (fuel : Nat) → Option Nat → List Char → List (List Char)
  | 0, _, _ => []
  | fuel + 1, ms, cs =>
      let cs := cs.dropWhile isPySpace
      if cs.isEmpty then []
      else
        match ms with
        | some 0 => [cs]
        | _ =>
            let tok := cs.takeWhile (fun c => !isPySpace c)
            let rest := cs.dropWhile (fun c => !isPySpace c)
            tok :: pySplitWsGo fuel (ms.map (fun n => n - 1)) rest

def pySplitWs (s : String) (maxsplit : Option Nat) : List String :=
  (pySplitWsGo (s.data.length + 1) maxsplit s.data).map (fun cs => ⟨cs⟩)

example : pySplitWs "a  b  c " (some 1) = ["a", "b  c "] := by decide
example : pySplitWs "@yearly" (some 1) = ["@yearly"] := by decide
example : pySplitWs " 0 0 1 1 * " none = ["0", "0", "1", "1", "*"] := by decide

/-- The `SUBSTITUTIONS` mapping in Python dict insertion order. -/
def SUBSTITUTIONS : List (String × String) :=
  [("@annually", "0 0 1 1 *"),
   ("@daily", "0 0 * * *"),
   ("@hourly", "0 * * * *"),
   ("@midnight", "0 0 * * *"),
   ("@monthly", "0 0 1 * *"),
   ("@weekly", "0 0 * * 0"),
   ("@yearly", "0 0 1 1 *")]

/-- The possible runtime types of the `epoch` constructor argument. -/
inductive EpochArg where
  | epochVal (e : Epoch)
  | noneVal
  | numberVal (n : Int)
  | tupleVal (t : List Int)
deriving DecidableEq, Repr

/-- The constructor's epoch normalisation.  `isinstance(epoch, (Epoch, None))`
tests the tuple entries in order: an `Epoch` instance matches the first entry
and short-circuits to `True`; any other argument fails the `Epoch` test and
then reaches `None`, which is not a type, so `isinstance` itself raises
`TypeError`.  The `elif` conversion branches for numeric and tuple epochs are
therefore unreachable. -/
def coerce_epoch : EpochArg → Except Err Epoch
  | .epochVal e => .ok e
  | _ => .error .typeError

/-- The default constructor argument `Epoch(1970, 1, 1, 0)`. -/
def defaultEpoch : Epoch := ⟨some 1970, some 1, some 1, some 0⟩

/-- `CronExpression.__init__(text, epoch, with_seconds, with_years)` up to the
compiled constraint sets.  `parts` is the whitespace split with maxsplit 1;
with fewer than two parts the source's tuple destructuring binds `expression`
to the whole *list* `parts`, which compares unequal to every substitution
target, so one-token `@`-shortcuts fall through to the field-count check.
The `except Error` re-raise only rewords the message, so error kinds pass
through unchanged. -/
def cronCompileArg (text : String) (epochArg : EpochArg)
    (with_seconds with_years : Bool) : Except Err ConstraintSets := do
  let parts := pySplitWs text (some 1)
  let expressionIfPair : Option String :=
    if parts.length == 2 then parts.head? else none
  let fields ←
    match SUBSTITUTIONS.find? (fun p => expressionIfPair == some p.1) with
    | some (_, replacement) =>
        let replacement :=
          if with_seconds then "0 " ++ replacement else replacement
        let replacement :=
          if with_years then replacement ++ " *" else replacement
        pure (pySplitWs replacement none)
    | none => do
        let expected_fields : Nat :=
          5 + (if with_seconds then 1 else 0) + (if with_years then 1 else 0)
        let fields0 := pySplitWs text (some expected_fields)
        let len_fields := fields0.length
        let fields1 :=
          if len_fields > expected_fields then fields0.dropLast else fields0
        if len_fields < expected_fields then
          throw .missingFieldsError
        let fields2 := if !with_seconds then "*" :: fields1 else fields1
        let fields3 := if !with_years then fields2 ++ ["*"] else fields2
        pure fields3
  let epoch ← coerce_epoch epochArg
  generate_constraint_sets fields (some epoch)

/-- Compilation with a genuine `Epoch` argument (the only usable kind). -/
def cronCompile (text : String) (epoch : Epoch)
    (with_seconds with_years : Bool) : Except Err ConstraintSets :=
  cronCompileArg text (.epochVal epoch) with_seconds with_years

/-! ### constraints_met and check_trigger

The `time.localtime` / `time.mktime` collaborators are parameters: the module
delegates calendar/timestamp conversion to the platform.  Concrete theorems
instantiate them with the UTC models below. -/

/-- Days since 1970-01-01 of a proleptic-Gregorian civil date
(Howard Hinnant's `days_from_civil`; Lean's floor division on `Int` makes the
era adjustment automatic). -/
def daysFromCivil (y m d : Int) : Int :=
  let y := if m ≤ 2 then y - 1 else y
  let era := y / 400
  let yoe := y - era * 400
  let mp := (m + 9) % 12
  let doy := (153 * mp + 2) / 5 + d - 1
  let doe := yoe * 365 + yoe / 4 - yoe / 100 + doy
  era * 146097 + doe - 719468

/-- Civil date from days since 1970-01-01 (Hinnant's `civil_from_days`). -/
def civilFromDays (z : Int) : Int × Int × Int :=
  let z := z + 719468
  let era := z / 146097
  let doe := z - era * 146097
  let yoe := (doe - doe / 1460 + doe / 36524 - doe / 146096) / 365
  let y := yoe + era * 400
  let doy := doe - (365 * yoe + yoe / 4 - yoe / 100)
  let mp := (5 * doy + 2) / 153
  let d := doy - (153 * mp + 2) / 5 + 1
  let m := mp + (if mp < 10 then 3 else -9)
  (y + (if m ≤ 2 then 1 else 0), m, d)

/-- UTC model of `time.mktime` applied to a (partial) time tuple. -/
def mktimeUTC (t : List Int) : Int :=
  daysFromCivil (t.getD 0 0) (t.getD 1 0) (t.getD 2 0) * 86400
    + t.getD 3 0 * 3600 + t.getD 4 0 * 60 + t.getD 5 0

/-- UTC model of `time.localtime`, producing the nine-element time tuple. -/
def localtimeUTC (ts : Int) : List Int :=
  let days := ts / 86400
  let rem := ts % 86400
  let c := civilFromDays days
  [c.1, c.2.1, c.2.2, rem / 3600, rem % 3600 / 60, rem % 60, 0, 0, 0]

example : daysFromCivil 1970 1 1 = 0 := by decide
example : daysFromCivil 1970 2 15 = 45 := by decide
example : mktimeUTC [2010, 1, 6, 0, 0, 0, 0, 0, -1] = 1262736000 := by decide
example : localtimeUTC 1262736000 = [2010, 1, 6, 0, 0, 0, 0, 0, 0] := by decide
example : civilFromDays 16801 = (2016, 1, 1) := by decide

/-- A candidate instant: a numeric Unix timestamp (Python `int`; a `float` is
truncated to one before use) or a calendar tuple.  The `when is None` branch
reads the wall clock and is outside this model. -/
inductive When where
  | ts (n : Int)
  | tup (t : List Int)
deriving DecidableEq, Repr

/-- The day-of-month fixed test
`fixed.days is not ASTERISK and day in fixed.days`. -/
def dayFixedCheck (days : FixedSet) (day : Int) : Bool :=
  match days with
  | .asterisk => false
  | .elems l => l.contains day

/-- `constraints_met(when, epoch, with_seconds, annotations, monotonic,
fixed)`.  Exceptions: the malformed-tuple `raise Error` cases; and the
`TypeError`s from `timestamp - epoch.timestamp` / `year - epoch.year` /
`month - epoch.month` when the respective epoch component is `None`
(the deltas are computed before any field check).  The final day /
day-of-the-week resolution returns `True` when the fixed or monotonic day
check succeeds, otherwise intersects the date's annotations with the
required set, and — when no annotations were compiled — returns `True`. -/
def constraints_met (localtime : Int → List Int) (mktime : List Int → Int)
    (when : When) (epoch : Epoch) (with_seconds : Bool) (anns : List Annot)
    (monotonic : FieldsOf (List Int)) (fixed : FieldsOf FixedSet) :
    Except Err Bool := do
  let (timestamp, year, month, day, hour, minute, second) ←
    match when with
    | .ts n =>
        let lt := localtime n
        pure (n, lt.getD 0 0, lt.getD 1 0, lt.getD 2 0, lt.getD 3 0,
              lt.getD 4 0, lt.getD 5 0)
    | .tup t => do
        if t.length > 9 then
          throw .genericError
        if t.length < (if with_seconds then 6 else 5) then
          throw .genericError
        let padded :=
          if t.length < 9 then t ++ List.drop (4 - (9 - t.length)) [0, 0, 0, -1]
          else t
        pure (mktime padded, padded.getD 0 0, padded.getD 1 0, padded.getD 2 0,
              padded.getD 3 0, padded.getD 4 0, padded.getD 5 0)
  let ets ← match epoch.timestamp with
    | some v => pure v
    | none => throw .typeError
  let dS := timestamp - ets
  let eyear ← match epoch.year with
    | some v => pure v
    | none => throw .typeError
  let dY := year - eyear
  let emonth ← match epoch.month with
    | some v => pure v
    | none => throw .typeError
  let dM := dY * 12 + month - emonth
  if !(fixed.seconds.mem second || check_monotonic dS monotonic.seconds 0) then
    return false
  if !(fixed.minutes.mem minute || check_monotonic dS monotonic.minutes 60) then
    return false
  if !(fixed.hours.mem hour || check_monotonic dS monotonic.hours 3600) then
    return false
  if !(fixed.months.mem month || check_monotonic dM monotonic.months 0) then
    return false
  if !(fixed.years.mem year || check_monotonic dY monotonic.years 0) then
    return false
  if dayFixedCheck fixed.days day || check_monotonic dS monotonic.days 86400 then
    return true
  else if anns ≠ [] then
    let dateAnns ← annotate year month day
    return dateAnns.any (fun a => anns.contains a)
  else
    return true

/-- `CronExpression(...).check_trigger(when)`: compile, then evaluate. -/
def check_trigger (localtime : Int → List Int) (mktime : List Int → Int)
    (text : String) (epoch : Epoch) (with_seconds with_years : Bool)
    (when : When) : Except Err Bool := do
  let (anns, monotonic, fixed) ← cronCompile text epoch with_seconds with_years
  constraints_met localtime mktime when epoch with_seconds anns monotonic fixed

example : expand .days "1-31" = .ok (pyrange 1 32 1) := by decide
example : expand .minutes "5-9/30" = .ok [5] := by decide
example : expand .dotw "5-1/3" = .ok [5, 1] := by decide
example : expand .dotw "0" = .ok [0] := by decide
example : expand .years "1970-2000/0" = .error (.invalidFieldError .years) := by
  decide
example : expand .years "X" = .error (.fieldSyntaxError .years) := by decide
example : expand .minutes "60" = .error (.outOfBounds .minutes) := by decide

end Cronex

namespace Cronex

/-! ## Claim theorems -/

/-- C1: the claim states that with all time/month/year checks passing, a
failed day-of-month fixed check, a failed day monotonic check and no
annotations, `check_trigger` returns false (a `0 0 5 * *`-style schedule must
not fire on a day other than the 5th).  The code instead returns `True` from
the final `else` branch: `0 0 5 * * 2010` compiles with fixed day set `{5}`
and no annotations, yet the trigger fires on 2010-01-06. -/
theorem c1_no_day_match_no_annots_fires :
    cronCompile "0 0 5 * * 2010" defaultEpoch false true
      = .ok ([], ⟨[], [], [], [], [], [], []⟩,
             ⟨.asterisk, .elems [0], .elems [0], .elems [5], .asterisk,
              .elems [], .elems [2010]⟩)
    ∧ check_trigger localtimeUTC mktimeUTC "0 0 5 * * 2010" defaultEpoch false
        true (.tup [2010, 1, 6, 0, 0]) = .ok true := by
  constructor
  · decide
  · decide

/-- C2: the claim states that `"@yearly"` compiles to the same constraint
sets as `"0 0 1 1 *"`.  In the source, `expression, comment = parts if
len(parts) == 2 else (parts, "")` binds `expression` to the one-element
*list* for a bare `"@yearly"`, so the substitution never matches and the
field-count check raises `MissingFieldsError`; with a trailing comment the
substitution does match, but the substituted list has only five fields and
`Fields(*...)` raises `TypeError`.  The explicit field set `0 0 1 1 *` (with
a concrete years field standing in for the stack-expensive `*` expansion)
compiles fine, so the claimed equality never gets a left-hand side. -/
theorem c2_yearly_never_compiles :
    cronCompile "@yearly" defaultEpoch false false = .error .missingFieldsError
    ∧ cronCompile "@yearly backup job" defaultEpoch false false
        = .error .typeError
    ∧ generate_constraint_sets ["*", "0", "0", "1", "1", "*", "1970"]
        (some defaultEpoch)
      = .ok ([], ⟨[], [], [], [], [], [], []⟩,
             ⟨.asterisk, .elems [0], .elems [0], .elems [1], .elems [1],
              .elems [], .elems [1970]⟩) := by
  refine ⟨by decide, by decide, by decide⟩

/-- C3: the claim states evaluation never raises, even for an expression
compiled with an `Epoch` whose timestamp is absent.  Compiling
`"* * * * * 2020"` with `Epoch(1970, 1, 1, None)` succeeds, but every
evaluation computes
`dS = timestamp - epoch.timestamp` before any field check and raises
`TypeError` on the `None` timestamp — for calendar tuples and numeric
timestamps alike. -/
theorem c3_eval_raises_on_timestampless_epoch :
    (cronCompile "* * * * * 2020" ⟨some 1970, some 1, some 1, none⟩ false
        true).isOk = true
    ∧ check_trigger localtimeUTC mktimeUTC "* * * * * 2020"
        ⟨some 1970, some 1, some 1, none⟩ false true
        (.tup [2020, 1, 1, 0, 0]) = .error .typeError
    ∧ check_trigger localtimeUTC mktimeUTC "* * * * * 2020"
        ⟨some 1970, some 1, some 1, none⟩ false true
        (.ts 1577836800) = .error .typeError := by
  refine ⟨by decide, by decide, by decide⟩

/-- C4 counterexample: the claim asserts the reduced fixed set triggers on
*exactly* the instants of direct modular evaluation, for every valid epoch.
For period 6 in the months field with epoch month January, the reduced set
`{1, 7}` contains the epoch month itself, but direct evaluation of the zero
elapsed delta through `check_monotonic` returns false, so the two disagree at
the epoch instant. -/
theorem c4_counterexample_epoch_instant :
    parse_atom .months "%6" (some ⟨some 2000, some 1, some 1, none⟩)
      = .ok (.fixed [1, 7])
    ∧ ([1, 7] : List Int).contains 1 = true
    ∧ check_monotonic 0 [6] 0 = false := by
  refine ⟨by decide, by decide, by decide⟩

/-- C5: the claim states a monotonic constraint is satisfied exactly when the
elapsed delta modulo the period is zero, *including* a delta of zero.  The
guard `if series and value` in `check_monotonic` makes a zero delta always
unsatisfied even though `0 % P == 0`; a genuine non-zero multiple passes. -/
theorem c5_zero_delta_unsatisfied :
    check_monotonic 0 [2] 0 = false
    ∧ ((0 : Int) % 2 == 0) = true
    ∧ check_monotonic 4 [2] 0 = true := by
  refine ⟨by decide, by decide, by decide⟩

/-- C6 counterexample: the claim requires a match exactly when the date's
annotations are a *superset* of the required set.  `0 0 L * 1 2016` requires
`{last-day, Monday}`; 2016-02-01 is a Monday but not the last day of the
month, so the superset test fails, yet the trigger fires because the code
only intersects the two sets. -/
theorem c6_counterexample_not_superset :
    check_trigger localtimeUTC mktimeUTC "0 0 L * 1 2016" defaultEpoch false
        true (.tup [2016, 2, 1, 0, 0]) = .ok true
    ∧ (cronCompile "0 0 L * 1 2016" defaultEpoch false true).toOption.map
        (fun r => r.1) = some [.lastDays 0, .dotw 1]
    ∧ (annotate 2016 2 1).toOption.map
        (fun l => l.contains (Annot.lastDays 0)) = some false := by
  refine ⟨by decide, by decide, by decide⟩

/-- C7: the claim states `A-B` with `A ≤ B` expands to exactly `{A, …, B}`.
The source's `if first < last` treats the degenerate case `A == B` as a
wraparound range, so `5-5` in the hours field expands to the entire field
range instead of `{5}`; proper ranges `A < B`, stepped ranges and oversized
steps behave as documented. -/
theorem c7_degenerate_range_wraps :
    expand .hours "5-5"
      = .ok [6, 7, 8, 9, 10, 11, 12, 13, 14, 15, 16, 17, 18, 19, 20, 21, 22,
             23, 0, 1, 2, 3, 4, 5]
    ∧ expand .hours "5-10" = .ok [5, 6, 7, 8, 9, 10]
    ∧ expand .minutes "5-9/30" = .ok [5]
    ∧ expand .minutes "10-20/3" = .ok [10, 13, 16, 19] := by
  refine ⟨by decide, by decide, by decide, by decide⟩

/-- C10 counterexample: the claim says every days-of-the-week field whose
atoms expand to all seven weekday values is rejected with `InvalidField`.
The seven-value check runs per atom, so the seven-atom enumeration
`0,1,2,3,4,5,6` compiles into seven plain day-of-week annotations instead of
raising. -/
theorem c10_counterexample_seven_atoms_accepted :
    generate_constraint_sets ["0", "0", "0", "1", "1", "0,1,2,3,4,5,6", "1970"]
        (some defaultEpoch)
      = .ok ([.dotw 0, .dotw 1, .dotw 2, .dotw 3, .dotw 4, .dotw 5, .dotw 6],
             ⟨[], [], [], [], [], [], []⟩,
             ⟨.elems [0], .elems [0], .elems [0], .elems [1], .elems [1],
              .elems [], .elems [1970]⟩) := by
  decide

end Cronex

namespace Cronex

/-- C9: `isinstance(epoch, (Epoch, None))` lets genuine `Epoch` instances
pass (the conversion branches are never taken for them either), while every
other epoch argument — `None`, a numeric timestamp, a plain tuple — makes
`isinstance` raise `TypeError` when it reaches the non-type `None` entry, so
the numeric- and tuple-epoch conversion branches are unreachable and only
`Epoch` instances are usable. -/
theorem c9_only_epoch_instances_usable :
    ∀ a : EpochArg,
      cronCompileArg "* * * * * 1970" a false true = .error .typeError
        ↔ ∀ e : Epoch, a ≠ .epochVal e := by
  intro a
  cases a with
  | epochVal e =>
      constructor
      · intro h
        exact absurd h (by
          have hok : cronCompileArg "* * * * * 1970" (.epochVal e) false true
              = .ok ([], ⟨[], [], [], [], [], [], []⟩,
                     ⟨.asterisk, .asterisk, .asterisk, .asterisk, .asterisk,
                      .elems [], .elems [1970]⟩) := rfl
          rw [hok]
          exact fun hc => Except.noConfusion hc)
      · intro h
        exact absurd rfl (h e)
  | noneVal =>
      exact ⟨fun _ e hc => EpochArg.noConfusion hc, fun _ => rfl⟩
  | numberVal n =>
      exact ⟨fun _ e hc => EpochArg.noConfusion hc, fun _ => rfl⟩
  | tupleVal t =>
      exact ⟨fun _ e hc => EpochArg.noConfusion hc, fun _ => rfl⟩

end Cronex

namespace Cronex

/-- C6 (amended): when the day-of-month fixed and monotonic checks both fail
and the compiled expression carries at least one annotation, the instant
matches exactly when the candidate date's annotation set has a *non-empty
intersection* with the required annotation set (the source computes
`bool(annotate(...).intersection(annotations))`), not when it is a superset
of it. -/
theorem c6_day_fallback_is_intersection :
    ∀ (lt : Int → List Int) (mk : List Int → Int) (y mo d h mi : Int)
      (epoch : Epoch) (ets ey em : Int) (anns : List Annot)
      (mono : FieldsOf (List Int)) (fx : FieldsOf FixedSet),
      epoch.timestamp = some ets → epoch.year = some ey →
      epoch.month = some em → anns ≠ [] →
      (fx.seconds.mem 0
        || check_monotonic (mk [y, mo, d, h, mi, 0, 0, 0, -1] - ets)
             mono.seconds 0) = true →
      (fx.minutes.mem mi
        || check_monotonic (mk [y, mo, d, h, mi, 0, 0, 0, -1] - ets)
             mono.minutes 60) = true →
      (fx.hours.mem h
        || check_monotonic (mk [y, mo, d, h, mi, 0, 0, 0, -1] - ets)
             mono.hours 3600) = true →
      (fx.months.mem mo
        || check_monotonic ((y - ey) * 12 + mo - em) mono.months 0) = true →
      (fx.years.mem y || check_monotonic (y - ey) mono.years 0) = true →
      dayFixedCheck fx.days d = false →
      check_monotonic (mk [y, mo, d, h, mi, 0, 0, 0, -1] - ets) mono.days 86400
        = false →
      constraints_met lt mk (.tup [y, mo, d, h, mi]) epoch false anns mono fx
        = (annotate y mo d).map (fun l => l.any (fun a => anns.contains a)) := by
  intro lt mk y mo d h mi epoch ets ey em anns mono fx hts hy hm hne h1 h2 h3
    h4 h5 hday hmono
  unfold constraints_met
  simp [pure_bind, hts, hy, hm, h1, h2, h3, h4, h5, hday, hmono, hne]
  have n1 : ¬(fx.seconds.mem 0 = false ∧
      check_monotonic (mk [y, mo, d, h, mi, 0, 0, 0, -1] - ets) mono.seconds 0
        = false) := by
    rintro ⟨ha, hb⟩
    rw [ha, hb] at h1
    exact absurd h1 (by decide)
  have n2 : ¬(fx.minutes.mem mi = false ∧
      check_monotonic (mk [y, mo, d, h, mi, 0, 0, 0, -1] - ets) mono.minutes 60
        = false) := by
    rintro ⟨ha, hb⟩
    rw [ha, hb] at h2
    exact absurd h2 (by decide)
  have n3 : ¬(fx.hours.mem h = false ∧
      check_monotonic (mk [y, mo, d, h, mi, 0, 0, 0, -1] - ets) mono.hours 3600
        = false) := by
    rintro ⟨ha, hb⟩
    rw [ha, hb] at h3
    exact absurd h3 (by decide)
  have n4 : ¬(fx.months.mem mo = false ∧
      check_monotonic ((y - ey) * 12 + mo - em) mono.months 0 = false) := by
    rintro ⟨ha, hb⟩
    rw [ha, hb] at h4
    exact absurd h4 (by decide)
  have n5 : ¬(fx.years.mem y = false ∧
      check_monotonic (y - ey) mono.years 0 = false) := by
    rintro ⟨ha, hb⟩
    rw [ha, hb] at h5
    exact absurd h5 (by decide)
  rw [if_neg n1, if_neg n2, if_neg n3, if_neg n4, if_neg n5]
  cases hA : annotate y mo d <;> simp [hA, Except.map]

/-- Witness for C6: a concrete instantiation of the amended theorem — a
Monday with required set `{last-day, Monday}` evaluates to the intersection
test. -/
theorem c6_day_fallback_is_intersection_witness :
    constraints_met localtimeUTC mktimeUTC (.tup [2016, 2, 1, 0, 0])
        defaultEpoch false [.lastDays 0, .dotw 1] ⟨[], [], [], [], [], [], []⟩
        ⟨.asterisk, .asterisk, .asterisk, .elems [31], .asterisk, .elems [],
         .asterisk⟩
      = (annotate 2016 2 1).map
          (fun l => l.any (fun a =>
            ([Annot.lastDays 0, Annot.dotw 1]).contains a)) :=
  c6_day_fallback_is_intersection localtimeUTC mktimeUTC 2016 2 1 0 0
    defaultEpoch 0 1970 1 [.lastDays 0, .dotw 1] ⟨[], [], [], [], [], [], []⟩
    ⟨.asterisk, .asterisk, .asterisk, .elems [31], .asterisk, .elems [],
     .asterisk⟩
    rfl rfl rfl (by decide) (by decide) (by decide) (by decide) (by decide)
    (by decide) (by decide) (by decide)

end Cronex

namespace Cronex

/-! ### Helper lemmas for the Except monad and the compilation pipeline -/

theorem exc_bind_ok {ε α β : Type} (a : α) (f : α → Except ε β) :
    (Except.ok a : Except ε α) >>= f = f a := rfl

theorem exc_bind_err {ε α β : Type} (e : ε) (f : α → Except ε β) :
    (Except.error e : Except ε α) >>= f = Except.error e := rfl

theorem exc_pure_eq {ε α : Type} (a : α) :
    (pure a : Except ε α) = Except.ok a := rfl

theorem exc_throw_eq {ε α : Type} (e : ε) :
    (throw e : Except ε α) = Except.error e := rfl

theorem parseMonotonicTail_monotonic_ge_two {field : Field} {atom : String}
    {epoch : Option Epoch} {p : Int}
    (h : parseMonotonicTail field atom epoch = .ok (.monotonic p)) :
    2 ≤ p := by
  unfold parseMonotonicTail at h
  simp only [exc_pure_eq, exc_throw_eq, exc_bind_ok, exc_bind_err] at h
  repeat' split at h
  all_goals
    first
    | exact absurd h (fun hc => Except.noConfusion hc)
    | exact absurd h (fun hc =>
        Except.noConfusion hc (fun hp => ParsedAtom.noConfusion hp))
    | (injection h with h1; injection h1 with h2; omega)

theorem exc_bind_eq_ok {ε α β : Type} {e : Except ε α} {f : α → Except ε β}
    {b : β} : (e >>= f) = .ok b ↔ ∃ a, e = .ok a ∧ f a = .ok b := by
  cases e
  · constructor
    · intro hc
      exact absurd hc (fun hc2 => Except.noConfusion hc2)
    · rintro ⟨a, ha, _⟩
      exact absurd ha (fun hc2 => Except.noConfusion hc2)
  · constructor
    · intro hc
      exact ⟨_, rfl, hc⟩
    · rintro ⟨a, ha, hfa⟩
      injection ha with ha1
      rw [ha1]
      exact hfa

theorem parseDotwAtom_annot {field : Field} {atom : String} {r : ParsedAtom}
    (h : parseDotwAtom field atom = .ok r) : ∃ anns, r = .annot anns := by
  unfold parseDotwAtom at h
  simp only [exc_pure_eq, exc_throw_eq, exc_bind_ok, exc_bind_err] at h
  split at h
  · exact absurd h (fun hc => Except.noConfusion hc)
  · split at h
    · injection h with h1
      exact ⟨[], h1.symm⟩
    · rw [exc_bind_eq_ok] at h
      obtain ⟨values, hv, h⟩ := h
      rw [exc_bind_eq_ok] at h
      obtain ⟨days, hd, h⟩ := h
      split at h
      · exact absurd h (fun hc => Except.noConfusion hc)
      · injection h with h1
        exact ⟨days.dedup, h1.symm⟩

theorem parse_atom_monotonic_ge_two {field : Field} {atom : String}
    {epoch : Option Epoch} {p : Int}
    (h : parse_atom field atom epoch = .ok (.monotonic p)) : 2 ≤ p := by
  unfold parse_atom parseAtomBody at h
  simp only [exc_pure_eq, exc_throw_eq, exc_bind_ok, exc_bind_err] at h
  repeat' split at h
  all_goals
    first
    | exact absurd h (fun hc => Except.noConfusion hc)
    | exact parseMonotonicTail_monotonic_ge_two h
    | (obtain ⟨anns, hA⟩ := parseDotwAtom_annot h
       exact ParsedAtom.noConfusion hA)
    | (rw [exc_bind_eq_ok] at h
       obtain ⟨a, ha1, ha2⟩ := h
       injection ha2 with h1
       exact ParsedAtom.noConfusion h1)

theorem pyAdd_mem_or {s : List Int} {v x : Int} (hx : x ∈ pyAdd s v) :
    x ∈ s ∨ x = v := by
  unfold pyAdd at hx
  split at hx
  · exact .inl hx
  · rcases List.mem_append.1 hx with h | h
    · exact .inl h
    · exact .inr (List.mem_singleton.1 h)

theorem foldAtoms_mono_ge {field : Field} {epoch : Option Epoch} :
    ∀ (atoms : List String) (acc res : List Annot × List Int × List Int),
      List.foldlM (processFieldStep field epoch) acc atoms = .ok res →
      (∀ x ∈ acc.2.1, 2 ≤ x) → (∀ x ∈ res.2.1, 2 ≤ x) := by
  intro atoms
  induction atoms with
  | nil =>
      intro acc res h hacc
      rw [List.foldlM_nil] at h
      injection h with h1
      rw [← h1]
      exact hacc
  | cons a l ih =>
      intro acc res h hacc
      rw [List.foldlM_cons] at h
      rw [exc_bind_eq_ok] at h
      obtain ⟨acc2, hstep, hrest⟩ := h
      refine ih acc2 res hrest ?_
      obtain ⟨anns, mono, fx⟩ := acc
      unfold processFieldStep at hstep
      simp only [exc_pure_eq, exc_throw_eq, exc_bind_ok, exc_bind_err] at hstep
      rw [exc_bind_eq_ok] at hstep
      obtain ⟨r, hr, hmat⟩ := hstep
      cases r with
      | annot v =>
          injection hmat with h1
          rw [← h1]
          exact hacc
      | monotonic v =>
          injection hmat with h1
          rw [← h1]
          intro x hx
          rcases pyAdd_mem_or hx with h | h
          · exact hacc x h
          · rw [h]
            exact parse_atom_monotonic_ge_two hr
      | fixed v =>
          injection hmat with h1
          rw [← h1]
          exact hacc

theorem processField_mono_spec {field : Field} {part : String}
    {epoch : Option Epoch} {a : List Annot} {m : List Int} {f : FixedSet}
    (h : processField field part epoch = .ok (a, m, f)) :
    m = [] ∨ ∃ s, (∀ x ∈ s, 2 ≤ x) ∧ m = simplify_monotonic_series s := by
  unfold processField at h
  simp only [exc_pure_eq, exc_throw_eq, exc_bind_ok, exc_bind_err] at h
  rw [exc_bind_eq_ok] at h
  obtain ⟨atoms, hat, h⟩ := h
  rw [exc_bind_eq_ok] at h
  obtain ⟨acc, hfold, h⟩ := h
  obtain ⟨anns, mono, fixedVals⟩ := acc
  have hmono : ∀ x ∈ mono, 2 ≤ x := by
    refine foldAtoms_mono_ge atoms ([], [], []) _ hfold ?_
    intro x hx
    cases hx
  injection h with h1
  have hm : m = (if (Int.ofNat fixedVals.length
        == (fieldRange field).2 - (fieldRange field).1 + 1 : Bool) = true then
          (if ((FixedSet.asterisk : FixedSet) == FixedSet.asterisk) = true
            then ([] : List Int)
            else if mono ≠ [] then simplify_monotonic_series mono else mono)
        else
          (if ((FixedSet.elems fixedVals : FixedSet) == FixedSet.asterisk)
                = true
            then ([] : List Int)
            else if mono ≠ [] then simplify_monotonic_series mono else mono)) := by
    have := congrArg (fun t => t.2.1) h1
    simp only at this
    rw [← this]
    split
    · rfl
    · rfl
  rw [hm]
  split
  · left
    rfl
  · split
    · left
      rfl
    · split
      · right
        exact ⟨mono, hmono, rfl⟩
      · rename_i hne
        left
        exact not_not.1 (fun hcon => hne (by simp_all))

theorem simplifyStep_mem_or {factors : List Int} {v x : Int}
    (hx : x ∈ simplifyStep factors v) : x ∈ factors ∨ x = v := by
  unfold simplifyStep at hx
  split at hx
  · exact .inr (List.mem_singleton.1 hx)
  · split at hx
    · exact .inl hx
    · rcases List.mem_append.1 hx with h | h
      · exact .inl h
      · exact .inr (List.mem_singleton.1 h)

theorem simplify_fold_antichain :
    ∀ (l factors : List Int),
      (∀ x ∈ factors, 2 ≤ x) →
      (∀ x ∈ l, 2 ≤ x) →
      (∀ p ∈ factors, ∀ q ∈ factors, p ≠ q → ¬ p ∣ q) →
      (∀ p ∈ factors, ∀ x ∈ l, p ≤ x) →
      List.Sorted (fun a b => a ≤ b) l →
      ∀ p ∈ l.foldl simplifyStep factors, ∀ q ∈ l.foldl simplifyStep factors,
        p ≠ q → ¬ p ∣ q := by
  intro l
  induction l with
  | nil =>
      intro factors _ _ hanti _ _
      exact hanti
  | cons v rest ih =>
      intro factors h2 hl2 hanti hle hsorted
      rw [List.foldl_cons]
      have hv2 : 2 ≤ v := hl2 v (List.mem_cons_self v rest)
      have hfv : ∀ p ∈ factors, p ≤ v :=
        fun p hp => hle p hp v (List.mem_cons_self v rest)
      have hmem2 : ∀ x ∈ simplifyStep factors v, 2 ≤ x := by
        intro x hx
        rcases simplifyStep_mem_or hx with h | h
        · exact h2 x h
        · rw [h]; exact hv2
      have hstepanti : ∀ p ∈ simplifyStep factors v,
          ∀ q ∈ simplifyStep factors v, p ≠ q → ¬ p ∣ q := by
        unfold simplifyStep
        split
        · intro p hp q hq hne
          rw [List.mem_singleton.1 hp, List.mem_singleton.1 hq] at hne
          exact absurd rfl hne
        · split
          · exact hanti
          · rename_i hfactors hnodvd
            have hnd : ∀ f ∈ factors, ¬ f ∣ v := by
              intro f hf hdvd
              refine hnodvd ?_
              rw [List.any_eq_true]
              exact ⟨f, hf, by
                rw [beq_iff_eq]
                exact Int.emod_eq_zero_of_dvd hdvd⟩
            intro p hp q hq hne
            rcases List.mem_append.1 hp with hpf | hpv
            · rcases List.mem_append.1 hq with hqf | hqv
              · exact hanti p hpf q hqf hne
              · rw [List.mem_singleton.1 hqv]
                exact hnd p hpf
            · rcases List.mem_append.1 hq with hqf | hqv
              · rw [List.mem_singleton.1 hpv]
                intro hdvd
                have hq2 : 2 ≤ q := h2 q hqf
                have hqv2 : v ≤ q := Int.le_of_dvd (by omega) hdvd
                have hqv3 : q ≤ v := hfv q hqf
                have : q = v := le_antisymm hqv3 hqv2
                rw [List.mem_singleton.1 hpv] at hne
                exact hne (this.symm)
              · rw [List.mem_singleton.1 hpv, List.mem_singleton.1 hqv] at hne
                exact absurd rfl hne
      refine ih (simplifyStep factors v) hmem2
        (fun x hx => hl2 x (List.mem_cons_of_mem v hx)) hstepanti ?_
        ((List.sorted_cons.1 hsorted).2)
      intro p hp x hx
      rcases simplifyStep_mem_or hp with h | h
      · exact hle p h x (List.mem_cons_of_mem v hx)
      · rw [h]
        exact (List.sorted_cons.1 hsorted).1 x hx

theorem simplify_antichain {s : List Int} (h2 : ∀ x ∈ s, 2 ≤ x) :
    ∀ p ∈ simplify_monotonic_series s, ∀ q ∈ simplify_monotonic_series s,
      p ≠ q → ¬ p ∣ q := by
  unfold simplify_monotonic_series
  have hperm := List.perm_insertionSort (fun a b : Int => a ≤ b) s
  refine simplify_fold_antichain (sortInts s) [] ?_ ?_ ?_ ?_ ?_
  · intro x hx
    cases hx
  · intro x hx
    exact h2 x (hperm.mem_iff.1 hx)
  · intro p hp
    cases hp
  · intro p hp
    cases hp
  · exact List.sorted_insertionSort (fun a b : Int => a ≤ b) s

theorem foldGen_mono_spec {epoch : Option Epoch} :
    ∀ (pairs : List (Field × String))
      (acc res : List Annot × List (List Int) × List FixedSet),
      List.foldlM (generateStep epoch) acc pairs = .ok res →
      (∀ l ∈ acc.2.1,
        l = [] ∨ ∃ s, (∀ x ∈ s, 2 ≤ x) ∧ l = simplify_monotonic_series s) →
      ∀ l ∈ res.2.1,
        l = [] ∨ ∃ s, (∀ x ∈ s, 2 ≤ x) ∧ l = simplify_monotonic_series s := by
  intro pairs
  induction pairs with
  | nil =>
      intro acc res h hacc
      rw [List.foldlM_nil] at h
      injection h with h1
      rw [← h1]
      exact hacc
  | cons fp rest ih =>
      intro acc res h hacc
      rw [List.foldlM_cons] at h
      rw [exc_bind_eq_ok] at h
      obtain ⟨acc2, hstep, hrest⟩ := h
      refine ih acc2 res hrest ?_
      obtain ⟨annsAcc, monoL, fxL⟩ := acc
      unfold generateStep at hstep
      simp only [exc_pure_eq, exc_throw_eq, exc_bind_ok, exc_bind_err] at hstep
      rw [exc_bind_eq_ok] at hstep
      obtain ⟨r, hr, hmat⟩ := hstep
      obtain ⟨a, m, f⟩ := r
      injection hmat with h1
      rw [← h1]
      intro l hl
      rcases List.mem_append.1 hl with h | h
      · exact hacc l h
      · rw [List.mem_singleton.1 h]
        exact processField_mono_spec hr

theorem generate_mono_spec {parts : List String} {epoch : Option Epoch}
    {anns : List Annot} {mono : FieldsOf (List Int)} {fx : FieldsOf FixedSet}
    (h : generate_constraint_sets parts epoch = .ok (anns, mono, fx)) :
    ∀ l ∈ [mono.seconds, mono.minutes, mono.hours, mono.days, mono.months,
           mono.days_of_the_week, mono.years],
      l = [] ∨ ∃ s, (∀ x ∈ s, 2 ≤ x) ∧ l = simplify_monotonic_series s := by
  unfold generate_constraint_sets at h
  simp only [exc_pure_eq, exc_throw_eq, exc_bind_ok, exc_bind_err] at h
  rw [exc_bind_eq_ok] at h
  obtain ⟨acc, hfold, h⟩ := h
  obtain ⟨accA, accM, accF⟩ := acc
  have hP := foldGen_mono_spec _ ([], [], []) _ hfold
    (by intro l hl; cases hl)
  split at h
  · rename_i m1 m2 m3 m4 m5 m6 m7 f1 f2 f3 f4 f5 f6 f7 heqM heqF
    injection h with h1
    have hmono : mono = ⟨m1, m2, m3, m4, m5, m6, m7⟩ := by
      have := congrArg (fun t => t.2.1) h1
      simpa using this.symm
    subst hmono
    have hmem : ∀ x ∈ [m1, m2, m3, m4, m5, m6, m7], x ∈ accM := by
      intro x hx
      have heqM2 : accM = [m1, m2, m3, m4, m5, m6, m7] := heqM
      rw [heqM2]
      exact hx
    intro l hl
    exact hP l (hmem l hl)
  · exact absurd h (fun hc => Except.noConfusion hc)

theorem check_monotonic_drop_redundant :
    ∀ (series : List Int) (Q value numerator : Int),
      (∃ P, P ∈ series ∧ P ∣ Q ∧ P ≠ Q) →
      check_monotonic value (series.filter (fun x => x != Q)) numerator
        = check_monotonic value series numerator := by
  rintro series Q value numerator ⟨P, hP, hdvd, hne⟩
  unfold check_monotonic
  have hPf : P ∈ series.filter (fun x => x != Q) :=
    List.mem_filter.2 ⟨hP, by rw [bne_iff_ne]; exact hne⟩
  have hs1 : series ≠ [] := List.ne_nil_of_mem hP
  have hs2 : series.filter (fun x => x != Q) ≠ [] := List.ne_nil_of_mem hPf
  by_cases hv : value = 0
  · subst hv
    simp
  · have c1 : (decide (series.filter (fun x => x != Q) ≠ [])
        && (value != 0)) = true := by simp [hs2, hv]
    have c2 : (decide (series ≠ []) && (value != 0)) = true := by
      simp [hs1, hv]
    simp only [c1, c2, if_true]
    rw [Bool.eq_iff_iff]
    simp only [List.any_eq_true]
    constructor
    · rintro ⟨x, hx, hpx⟩
      exact ⟨x, (List.mem_filter.1 hx).1, hpx⟩
    · rintro ⟨x, hx, hpx⟩
      by_cases hxQ : x = Q
      · subst hxQ
        refine ⟨P, hPf, ?_⟩
        rw [beq_iff_eq] at hpx ⊢
        exact Int.emod_eq_zero_of_dvd
          (dvd_trans hdvd (Int.dvd_of_emod_eq_zero hpx))
      · exact ⟨x, List.mem_filter.2 ⟨hx, by rw [bne_iff_ne]; exact hxQ⟩, hpx⟩

/-- C8: in every successfully compiled constraint set, each field's
monotonic period set is a divisibility antichain — it contains no two
distinct periods P and Q with P dividing Q (every compiled set is either
empty or the output of `simplify_monotonic_series` on periods that are all
at least 2) — and removing a redundant Q (one divided by another member P)
from any period set never changes the result of `check_monotonic`. -/
theorem c8_monotonic_sets_reduced :
    (∀ (parts : List String) (epoch : Option Epoch) (anns : List Annot)
       (mono : FieldsOf (List Int)) (fx : FieldsOf FixedSet),
       generate_constraint_sets parts epoch = .ok (anns, mono, fx) →
       ∀ l ∈ [mono.seconds, mono.minutes, mono.hours, mono.days, mono.months,
              mono.days_of_the_week, mono.years],
         ∀ p ∈ l, ∀ q ∈ l, p ≠ q → ¬ p ∣ q)
    ∧ (∀ (series : List Int) (Q value numerator : Int),
       (∃ P, P ∈ series ∧ P ∣ Q ∧ P ≠ Q) →
       check_monotonic value (series.filter (fun x => x != Q)) numerator
         = check_monotonic value series numerator) := by
  constructor
  · intro parts epoch anns mono fx h l hl
    rcases generate_mono_spec h l hl with hnil | ⟨s, hs2, hsimp⟩
    · rw [hnil]
      intro p hp
      cases hp
    · rw [hsimp]
      exact simplify_antichain hs2
  · exact check_monotonic_drop_redundant

/-- Witness for C8: the expression fields `0 %4,%6 0 1 1 0 1970` compile
with minutes period set `{4, 6}` (an antichain: 4 does not divide 6), and
dropping the redundant 4-multiple from `{2, 4}` leaves `check_monotonic`
unchanged. -/
theorem c8_monotonic_sets_reduced_witness :
    (¬ (4 : Int) ∣ 6)
    ∧ check_monotonic 12 ([2, 4].filter (fun x => x != 4)) 5
        = check_monotonic 12 [2, 4] 5 := by
  constructor
  · exact c8_monotonic_sets_reduced.1
      ["0", "%4,%6", "0", "1", "1", "0", "1970"] (some defaultEpoch)
      [.dotw 0]
      ⟨[], [4, 6], [], [], [], [], []⟩
      ⟨.elems [0], .elems [], .elems [0], .elems [1], .elems [1], .elems [],
       .elems [1970]⟩
      (by decide) [4, 6] (by simp) 4 (by simp) 6 (by simp) (by decide)
  · exact c8_monotonic_sets_reduced.2 [2, 4] 4 12 5
      ⟨2, by simp, by decide, by decide⟩

end Cronex

namespace Cronex

/-! ### Monotonic-to-fixed reduction equivalence (C4) -/

theorem mem_cycle_series {c P e x : Int} (hc : 0 < c) (hP : 0 < P)
    (hdvd : P ∣ c) :
    x ∈ (List.range (c / P).toNat).map (fun n => (Int.ofNat n * P + e) % c)
      ↔ 0 ≤ x ∧ x < c ∧ P ∣ (x - e) := by
  constructor
  · intro hx
    rcases List.mem_map.1 hx with ⟨n, _, hval⟩
    refine ⟨hval ▸ Int.emod_nonneg _ (by omega), hval ▸ Int.emod_lt_of_pos _ hc, ?_⟩
    rw [← hval]
    have hd : (Int.ofNat n * P + e) % c
        = (Int.ofNat n * P + e) - c * ((Int.ofNat n * P + e) / c) :=
      Int.emod_def _ _
    rw [hd]
    have h1 : P ∣ Int.ofNat n * P := Dvd.intro_left _ rfl
    have h2 : P ∣ c * ((Int.ofNat n * P + e) / c) :=
      Dvd.dvd.mul_right hdvd _
    have : Int.ofNat n * P + e - c * ((Int.ofNat n * P + e) / c) - e
        = Int.ofNat n * P - c * ((Int.ofNat n * P + e) / c) := by ring
    rw [this]
    exact dvd_sub h1 h2
  · rintro ⟨hx0, hxc, hxd⟩
    set r := (x - e) % c with hr
    have hr0 : 0 ≤ r := Int.emod_nonneg _ (by omega)
    have hrc : r < c := Int.emod_lt_of_pos _ hc
    have hrd : P ∣ r := by
      rw [hr, Int.emod_def]
      exact dvd_sub hxd (Dvd.dvd.mul_right hdvd _)
    have hne : r / P * P = r := Int.ediv_mul_cancel hrd
    have hn0 : 0 ≤ r / P := Int.ediv_nonneg hr0 (le_of_lt hP)
    refine List.mem_map.2 ⟨(r / P).toNat, List.mem_range.2 ?_, ?_⟩
    · have hlt : r / P < c / P := by
        have hcP : c / P * P = c := Int.ediv_mul_cancel hdvd
        by_contra hcon
        push_neg at hcon
        have := mul_le_mul_of_nonneg_right hcon (le_of_lt hP)
        rw [hne, hcP] at this
        omega
      omega
    · have hcast : (Int.ofNat (r / P).toNat) = r / P := by
        simpa using Int.toNat_of_nonneg hn0
      rw [hcast, hne]
      have hsub : c ∣ (r + e - x) := by
        rw [hr, Int.emod_def]
        have : x - e - c * ((x - e) / c) + e - x = -(c * ((x - e) / c)) := by
          ring
        rw [this]
        exact dvd_neg.mpr (Dvd.intro _ rfl)
      have hxmod : x % c = x := Int.emod_eq_of_lt hx0 hxc
      rw [← hxmod, Int.emod_eq_emod_iff_emod_sub_eq_zero]
      exact Int.emod_eq_zero_of_dvd hsub

theorem int_emod_eq_zero_iff_dvd {a b : Int} : a % b = 0 ↔ b ∣ a :=
  ⟨Int.dvd_of_emod_eq_zero, Int.emod_eq_zero_of_dvd⟩

theorem check_monotonic_single {d P : Int} (hd : d ≠ 0) :
    check_monotonic d [P] 0 = true ↔ P ∣ d := by
  unfold check_monotonic
  have hcond : (decide (([P] : List Int) ≠ []) && (d != 0)) = true := by
    simp [hd]
  rw [hcond]
  simp [int_emod_eq_zero_iff_dvd]

theorem monthsReductionEquiv :
    ∀ (P eM dY m : Int), 2 ≤ P → P ∣ 12 → 1 ≤ m → m ≤ 12 →
      dY * 12 + m - eM ≠ 0 →
      FixedSet.mem (.elems (monthsMonotonicSeries P eM)) m
        = check_monotonic (dY * 12 + m - eM) [P] 0 := by
  intro P eM dY m hP2 hP12 hm1 hm2 hne
  have hP0 : 0 < P := by omega
  rw [Bool.eq_iff_iff]
  have hmemiff : FixedSet.mem (.elems (monthsMonotonicSeries P eM)) m = true
      ↔ P ∣ (m - eM) := by
    show (monthsMonotonicSeries P eM).contains m = true ↔ _
    rw [List.elem_iff]
    unfold monthsMonotonicSeries
    simp only []
    have hmap : (m ∈ (List.range ((12 : Int) / P).toNat).map
        (fun n => (Int.ofNat n * P + (eM - 1)) % 12 + 1))
        ↔ ((m - 1) ∈ (List.range ((12 : Int) / P).toNat).map
        (fun n => (Int.ofNat n * P + (eM - 1)) % 12)) := by
      simp only [List.mem_map]
      constructor
      · rintro ⟨n, hn, hv⟩
        exact ⟨n, hn, by omega⟩
      · rintro ⟨n, hn, hv⟩
        exact ⟨n, hn, by omega⟩
    rw [hmap, mem_cycle_series (by norm_num) hP0 hP12]
    constructor
    · rintro ⟨_, _, hd⟩
      have : m - 1 - (eM - 1) = m - eM := by ring
      rwa [this] at hd
    · intro hd
      refine ⟨by omega, by omega, ?_⟩
      have : m - 1 - (eM - 1) = m - eM := by ring
      rw [this]
      exact hd
  have hckiff : check_monotonic (dY * 12 + m - eM) [P] 0 = true
      ↔ P ∣ (m - eM) := by
    rw [check_monotonic_single hne]
    have h12 : P ∣ dY * 12 := Dvd.dvd.mul_left hP12 dY
    have hsplit : dY * 12 + m - eM = dY * 12 + (m - eM) := by ring
    rw [hsplit]
    exact dvd_add_right h12
  rw [hmemiff, hckiff]

theorem secondsReductionEquiv :
    ∀ (P ets dS : Int), 2 ≤ P → P ∣ 60 → dS ≠ 0 →
      FixedSet.mem (.elems (secondsMonotonicSeries P ets)) ((ets + dS) % 60)
        = check_monotonic dS [P] 0 := by
  intro P ets dS hP2 hP60 hne
  have hP0 : 0 < P := by omega
  rw [Bool.eq_iff_iff]
  have hs0 : 0 ≤ (ets + dS) % 60 := Int.emod_nonneg _ (by norm_num)
  have hs60 : (ets + dS) % 60 < 60 := Int.emod_lt_of_pos _ (by norm_num)
  have hdiff : (60 : Int) ∣ (ets + dS - (ets + dS) % 60) :=
    ⟨(ets + dS) / 60, by rw [Int.emod_def]; ring⟩
  have hP60' : P ∣ (ets + dS - (ets + dS) % 60) := dvd_trans hP60 hdiff
  have hmemiff :
      FixedSet.mem (.elems (secondsMonotonicSeries P ets)) ((ets + dS) % 60)
        = true ↔ P ∣ ((ets + dS) % 60 - ets) := by
    show (secondsMonotonicSeries P ets).contains ((ets + dS) % 60) = true ↔ _
    rw [List.elem_iff]
    unfold secondsMonotonicSeries
    simp only []
    rw [mem_cycle_series (by norm_num) hP0 hP60]
    constructor
    · rintro ⟨_, _, hd⟩
      exact hd
    · intro hd
      exact ⟨hs0, hs60, hd⟩
  have hiff2 : P ∣ ((ets + dS) % 60 - ets) ↔ P ∣ dS := by
    constructor
    · intro h
      have h2 := dvd_add h hP60'
      have he : (ets + dS) % 60 - ets + (ets + dS - (ets + dS) % 60) = dS := by
        ring
      rwa [he] at h2
    · intro h
      have h2 := dvd_sub h hP60'
      have he : dS - (ets + dS - (ets + dS) % 60) = (ets + dS) % 60 - ets := by
        ring
      rwa [he] at h2
  rw [hmemiff, check_monotonic_single hne, hiff2]

/-- C4 (amended): for a period P dividing the cycle length (12 for months,
60 for seconds), the reduced fixed set produced by `parse_atom` triggers on
exactly the instants accepted by direct modular evaluation of the elapsed
delta through `check_monotonic`, for every epoch and every instant *other
than the epoch itself*: with elapsed delta zero the fixed set contains the
epoch's own month/second while `check_monotonic` rejects a zero delta
(see the counterexample). -/
theorem c4_monotonic_reduction_equiv_off_epoch :
    (∀ (P eM dY m : Int), 2 ≤ P → P ∣ 12 → 1 ≤ m → m ≤ 12 →
       dY * 12 + m - eM ≠ 0 →
       FixedSet.mem (.elems (monthsMonotonicSeries P eM)) m
         = check_monotonic (dY * 12 + m - eM) [P] 0)
    ∧ (∀ (P ets dS : Int), 2 ≤ P → P ∣ 60 → dS ≠ 0 →
       FixedSet.mem (.elems (secondsMonotonicSeries P ets)) ((ets + dS) % 60)
         = check_monotonic dS [P] 0) :=
  ⟨monthsReductionEquiv, secondsReductionEquiv⟩

/-- Witness for C4's amended equivalence: period 3 months from epoch month
May matches August one year later (delta 15 months), and period 15 seconds
from epoch timestamp 100 matches 30 seconds later. -/
theorem c4_monotonic_reduction_equiv_off_epoch_witness :
    (FixedSet.mem (.elems (monthsMonotonicSeries 3 5)) 8
        = check_monotonic (1 * 12 + 8 - 5) [3] 0)
    ∧ (FixedSet.mem (.elems (secondsMonotonicSeries 15 100)) ((100 + 30) % 60)
        = check_monotonic 30 [15] 0) :=
  ⟨c4_monotonic_reduction_equiv_off_epoch.1 3 5 1 8 (by norm_num)
      (by norm_num) (by norm_num) (by norm_num) (by norm_num),
   c4_monotonic_reduction_equiv_off_epoch.2 15 100 30 (by norm_num)
      (by norm_num) (by norm_num)⟩

end Cronex


namespace Cronex

theorem splitOnChar_ne_nil (sep : Char) (l : List Char) :
    splitOnChar sep l ≠ [] := by
  cases l with
  | nil => exact fun hc => List.noConfusion hc
  | cons c rest =>
      unfold splitOnChar
      split
      · exact fun hc => List.noConfusion hc
      · cases hr : splitOnChar sep rest <;> simp [hr]

theorem splitOnChar_head {sep c : Char} (rest : List Char)
    (h : (c == sep) = false) :
    ∃ t r2, splitOnChar sep (c :: rest) = (c :: t) :: r2 := by
  unfold splitOnChar
  rw [h]
  simp only [Bool.false_eq_true, if_false]
  cases hr : splitOnChar sep rest with
  | nil => exact absurd hr (splitOnChar_ne_nil sep rest)
  | cons hh tt => exact ⟨hh, tt, by simp [hr]⟩

theorem string_mk_percent_ne_star (t : List Char) :
    ((⟨'%' :: t⟩ : String) == "*") = false := by
  apply beq_eq_false_iff_ne.mpr
  intro hc
  have hd := congrArg String.data hc
  simp only [String.data] at hd
  exact absurd (List.head_eq_of_cons_eq hd) (by decide)

theorem pyIsDigit_percent (t : List Char) :
    pyIsDigit ⟨'%' :: t⟩ = false := by
  unfold pyIsDigit
  simp [List.all_cons]

theorem pySplitOn_percent (sep : Char) (hsep : ('%' == sep) = false)
    (cs : List Char) :
    ∃ (t : List Char) (r2 : List (List Char)), pySplitOn sep ⟨'%' :: cs⟩
      = (⟨'%' :: t⟩ : String) :: List.map (fun l => (⟨l⟩ : String)) r2 := by
  obtain ⟨t, r2, hsp⟩ := @splitOnChar_head sep '%' cs hsep
  exact ⟨t, r2, by unfold pySplitOn; rw [show (⟨'%' :: cs⟩ : String).data = '%' :: cs from rfl, hsp, List.map_cons]⟩

theorem rangeRegexMatch_percent {s : String} {cs : List Char}
    (h : s.data = '%' :: cs) : rangeRegexMatch s = none := by
  have hbody : ∀ tb : List Char,
      (if ((⟨'%' :: tb⟩ : String) == "*") = true then some none
       else
         match pySplitOn '-' ⟨'%' :: tb⟩ with
         | [x, y] =>
             if pyIsDigit x && pyIsDigit y then some (some (x, y)) else none
         | _ => none) = none := by
    intro tb
    rw [string_mk_percent_ne_star tb]
    simp only [Bool.false_eq_true, if_false]
    obtain ⟨t2, r3, hsp2⟩ := pySplitOn_percent '-' (by decide) tb
    rw [hsp2]
    rcases hr3 : List.map (fun l => (⟨l⟩ : String)) r3 with _ | ⟨y, _ | ⟨z, r5⟩⟩
    · rfl
    · dsimp only
      rw [pyIsDigit_percent t2, Bool.false_and]
      rfl
    · rfl
  have hs : s = ⟨'%' :: cs⟩ := by
    cases s; simp only [String.data] at h; rw [h]
  subst hs
  unfold rangeRegexMatch
  obtain ⟨t, r2, hsp⟩ := pySplitOn_percent '/' (by decide) cs
  dsimp only
  rw [hsp]
  rcases hr2 : List.map (fun l => (⟨l⟩ : String)) r2 with _ | ⟨y, _ | ⟨z, r5⟩⟩
  · dsimp only
    rw [hbody t]
    rfl
  · dsimp only
    split
    · rw [hbody t]
      rfl
    · rfl
  · rfl

theorem oobCheck_ok_bounds {field : Field} {what : List Int} {u : Unit}
    (h : oobCheck field what = .ok u) :
    ∀ v ∈ what, (fieldRange field).1 ≤ v ∧ v ≤ (fieldRange field).2 := by
  unfold oobCheck at h
  dsimp only at h
  split at h
  · rename_i hall
    intro v hv
    have hb := List.all_eq_true.mp hall v hv
    simp only [Bool.and_eq_true, decide_eq_true_eq] at hb
    exact hb
  · exact absurd h (by simp)

theorem pyrange_mem_bounds {a b s x : Int} (hs : 1 ≤ s)
    (hx : x ∈ pyrange a b s) : a ≤ x ∧ x < b := by
  unfold pyrange at hx
  simp only [List.pure_def, List.bind_eq_flatMap, List.mem_map,
    List.mem_flatMap, List.mem_range, List.mem_singleton] at hx
  obtain ⟨n, ⟨m, hm, hnm⟩, hxe⟩ := hx
  subst hnm
  subst hxe
  have h0 : (0 : Int) ≤ (m : Int) * s := mul_nonneg (Int.ofNat_nonneg m) (by omega)
  have hq0 : 0 < (b - a + s - 1) / s := by
    rcases lt_or_le 0 ((b - a + s - 1) / s) with hgt | hle
    · exact hgt
    · exfalso
      rw [Int.toNat_of_nonpos hle] at hm
      exact Nat.not_lt_zero m hm
  have hnq : (m : Int) + 1 ≤ (b - a + s - 1) / s := by
    have h1 : ((m : Int)) < (((b - a + s - 1) / s).toNat : Int) := by
      exact_mod_cast hm
    rwa [Int.toNat_of_nonneg (le_of_lt hq0), ← Int.add_one_le_iff] at h1
  have hmul : ((m : Int) + 1) * s ≤ ((b - a + s - 1) / s) * s :=
    mul_le_mul_of_nonneg_right hnq (by omega)
  have hdm : ((b - a + s - 1) / s) * s ≤ b - a + s - 1 :=
    Int.ediv_mul_le _ (by omega)
  have hexpand : ((m : Int) + 1) * s = (m : Int) * s + s := by ring
  constructor
  · linarith
  · linarith

theorem pySlice_mem {α : Type} {l : List α} {step : Nat} {x : α}
    (hx : x ∈ pySlice l step) : x ∈ l := by
  unfold pySlice at hx
  obtain ⟨p, hp, hpe⟩ := List.mem_map.mp hx
  have hpl := (List.mem_filter.mp hp).1
  subst hpe
  exact List.snd_mem_of_mem_enum hpl

theorem expand_ok_head_percent {field : Field} {atom : String}
    {values : List Int} (h : expand field atom = .ok values) :
    headIs '%' atom = false := by
  obtain ⟨data⟩ := atom
  cases hd : data with
  | nil => subst hd; rfl
  | cons c cs =>
      subst hd
      unfold headIs
      dsimp only
      by_cases hc : (c == '%') = true
      · exfalso
        have hc2 : c = '%' := beq_iff_eq.mp hc
        subst hc2
        unfold expand at h
        rw [pyIsDigit_percent cs] at h
        simp only [Bool.false_eq_true, if_false] at h
        rw [rangeRegexMatch_percent
          (show (⟨'%' :: cs⟩ : String).data = '%' :: cs from rfl)] at h
        exact Except.noConfusion h
      · exact Bool.eq_false_iff.mpr hc

theorem expand_tail_bounds {field : Field} {first last step : Int}
    {values : List Int} (hstep : ¬ step < 1)
    (h : (oobCheck field [first, last] >>= fun _ =>
          if first < last then
            (pure (pyrange first (last + 1) step) : Except Err (List Int))
          else
            pure (pySlice (pyrange first ((fieldRange field).2 + 1) 1 ++
                  pyrange (fieldRange field).1 (last + 1) 1) step.toNat).dedup)
        = .ok values) :
    ∀ v ∈ values, (fieldRange field).1 ≤ v ∧ v ≤ (fieldRange field).2 := by
  rw [exc_bind_eq_ok] at h
  obtain ⟨u, h1, h2⟩ := h
  have hbf := oobCheck_ok_bounds h1 first (by simp)
  have hbl := oobCheck_ok_bounds h1 last (by simp)
  split at h2
  · rw [exc_pure_eq] at h2
    have hv := Except.ok.inj h2
    subst hv
    intro v hv
    have hbv := pyrange_mem_bounds (by omega) hv
    omega
  · rw [exc_pure_eq] at h2
    have hv := Except.ok.inj h2
    subst hv
    intro v hv
    have hv2 := pySlice_mem (List.mem_dedup.mp hv)
    rcases List.mem_append.mp hv2 with hm | hm
    · have hbv := pyrange_mem_bounds (by omega) hm
      omega
    · have hbv := pyrange_mem_bounds (by omega) hm
      omega

theorem expand_ok_bounds {field : Field} {atom : String} {values : List Int}
    (h : expand field atom = .ok values) :
    ∀ v ∈ values, (fieldRange field).1 ≤ v ∧ v ≤ (fieldRange field).2 := by
  unfold expand at h
  dsimp only at h
  split at h
  · rw [exc_bind_eq_ok] at h
    obtain ⟨u, h1, h2⟩ := h
    have hb := oobCheck_ok_bounds h1
    rw [exc_pure_eq] at h2
    have hv := Except.ok.inj h2
    subst hv
    intro v hv
    rw [List.mem_singleton] at hv
    subst hv
    exact hb _ (List.mem_singleton.mpr rfl)
  · cases hrm : rangeRegexMatch atom with
    | none =>
        rw [hrm] at h
        exact Except.noConfusion h
    | some p =>
        obtain ⟨body, stepStr⟩ := p
        rw [hrm] at h
        dsimp only at h
        cases stepStr with
        | none =>
            cases body with
            | none =>
                dsimp only at h
                split at h
                · exact Except.noConfusion h
                · rename_i hstep
                  exact expand_tail_bounds hstep h
            | some pr =>
                obtain ⟨xs, ys⟩ := pr
                dsimp only at h
                split at h
                · exact Except.noConfusion h
                · rename_i hstep
                  exact expand_tail_bounds hstep h
        | some st =>
            cases body with
            | none =>
                dsimp only at h
                split at h
                · exact Except.noConfusion h
                · rename_i hstep
                  exact expand_tail_bounds hstep h
            | some pr =>
                obtain ⟨xs, ys⟩ := pr
                dsimp only at h
                split at h
                · exact Except.noConfusion h
                · rename_i hstep
                  exact expand_tail_bounds hstep h

theorem as_annot_digit (d : Int) (h0 : 0 ≤ d) (h6 : d ≤ 6) :
    as_annot Field.dotw (intToString d) = .ok (.dotw d) := by
  interval_cases d <;> decide

theorem mapM_dotw_ok (values : List Int)
    (hb : ∀ v ∈ values, 0 ≤ v ∧ v ≤ 6) :
    values.mapM (fun n => as_annot Field.dotw (intToString n))
      = .ok (values.map Annot.dotw) := by
  induction values with
  | nil => rfl
  | cons a l ih =>
      have ha := hb a (by simp)
      rw [List.mapM_cons, as_annot_digit a ha.1 ha.2, exc_bind_ok,
        ih (fun v hv => hb v (by simp [hv])), exc_bind_ok, exc_pure_eq,
        List.map_cons]

theorem dedup_length_map_dotw (l : List Int) :
    (l.map Annot.dotw).dedup.length = l.dedup.length := by
  induction l with
  | nil => rfl
  | cons a l ih =>
      rw [List.map_cons]
      by_cases hm : a ∈ l
      · rw [List.dedup_cons_of_mem hm,
          List.dedup_cons_of_mem (List.mem_map_of_mem _ hm), ih]
      · rw [List.dedup_cons_of_not_mem hm, List.dedup_cons_of_not_mem ?_,
          List.length_cons, List.length_cons, ih]
        intro hc
        obtain ⟨x, hx, he⟩ := List.mem_map.mp hc
        cases he
        exact hm hx

theorem covering_dedup_length {values : List Int}
    (hb : ∀ v ∈ values, 0 ≤ v ∧ v ≤ 6)
    (hcov : ∀ d : Int, 0 ≤ d → d ≤ 6 → d ∈ values) :
    values.dedup.length = 7 := by
  have hset : values.toFinset = Finset.Icc (0 : Int) 6 := by
    apply Finset.ext
    intro x
    simp only [List.mem_toFinset, Finset.mem_Icc]
    exact ⟨fun hx => hb x hx, fun hx => hcov x hx.1 hx.2⟩
  have hcard := congrArg Finset.card hset
  rw [List.card_toFinset] at hcard
  rw [hcard, Int.card_Icc]
  rfl

/-- C10 (amended): every single days-of-the-week atom other than the `*` and
`?` wildcards whose expansion covers all seven weekday values 0..6 (straight
ranges such as `0-6`, wraparound ranges such as `6-5`, stepped ranges such as
`0-6/1`) is rejected by `parse_atom` with an InvalidField error, for every
epoch; yet the same seven values split across seven comma-separated atoms
compile successfully. -/
theorem c10_single_atom_full_week_rejected :
    (∀ (atom : String) (epoch : Option Epoch) (values : List Int),
       atom ≠ "*" → atom ≠ "?" →
       expand Field.dotw atom = .ok values →
       (∀ d : Int, 0 ≤ d → d ≤ 6 → d ∈ values) →
       parse_atom Field.dotw atom epoch
         = .error (.invalidFieldError Field.dotw))
    ∧ (cronCompile "* * * * 0,1,2,3,4,5,6 1970" defaultEpoch false true).isOk
        = true := by
  constructor
  · intro atom epoch values hstar hq hexp hcov
    have hq2 : (atom == "?") = false := beq_eq_false_iff_ne.mpr hq
    have hstar2 : (atom == "*") = false := beq_eq_false_iff_ne.mpr hstar
    have hpc : headIs '%' atom = false := expand_ok_head_percent hexp
    have hb : ∀ v ∈ values, 0 ≤ v ∧ v ≤ 6 := expand_ok_bounds hexp
    have hbody : parse_atom Field.dotw atom epoch
        = parseDotwAtom Field.dotw atom := by
      unfold parse_atom
      rw [hq2]
      rfl
    rw [hbody]
    unfold parseDotwAtom
    rw [hpc]
    simp only [Bool.false_eq_true, if_false]
    rw [hstar2]
    simp only [Bool.false_eq_true, if_false]
    rw [hexp, exc_bind_ok, mapM_dotw_ok values hb, exc_bind_ok,
      dedup_length_map_dotw, covering_dedup_length hb hcov]
    rfl
  · decide

theorem c10_single_atom_full_week_rejected_witness :
    parse_atom Field.dotw "0-6" (some defaultEpoch)
      = .error (.invalidFieldError Field.dotw) :=
  c10_single_atom_full_week_rejected.1 "0-6" (some defaultEpoch)
    [0, 1, 2, 3, 4, 5, 6] (by decide) (by decide) (by decide)
    (by intro d h0 h6; interval_cases d <;> decide)

end Cronex
